import Mathlib

/-!
# Elastos key-pair SDK: transaction codec, hashing and signing

A shallow embedding of `src/Transaction/Transaction.cpp` and
`src/Transaction/Attribute.cpp`.

* Byte buffers (`CMBlock`) are lists of natural numbers, one per byte.
* Mutating member functions return the new object (and the value they return,
  when they have one).
* A read outside a buffer (undefined behaviour in C++) makes the embedded
  function return `none`; a private key handed over as `UInt256 *` is read on 32 bytes.
* The `int` loop counters of `GetSignedSigner` and the `uint32_t` index of `FromJson`
  are natural numbers; `size_t` subtraction wraps around (`sizeSub`).
* A `nlohmann::json` record is a value of `Json`; an exception, or the read of an absent
  key of a constant record, makes the embedded function return `none`.
* `printf` / `Utils::printBinary` / `WALLET_C_LOG` calls only trace and are left out.
* `mPayload` is set to `nullptr` by the constructor and never read: it is left out.
-/

namespace Elastos

/-! ## Data model -/

/-- Byte buffer `CMBlock`: the list of its bytes. -/
abbrev CMBlock := List Nat

/-- The 256-bit value `UInt256`, as the list of its 32 bytes. -/
abbrev UInt256 := List Nat

/-- `#define SIGNATURE_SCRIPT_LENGTH 65` (Transaction.cpp, line 8). -/
def SIGNATURE_SCRIPT_LENGTH : Nat := 65

/-- Modelled from the spec: `UINT256_ZERO`, the all-zero 256-bit sentinel
(its definition is in a header that is not part of the sources). -/
def UINT256_ZERO : UInt256 := List.replicate 32 0

/-- Modelled from the spec: `UInt256Eq`, equality of two 256-bit values. -/
def UInt256Eq (a b : UInt256) : Bool := a == b

/-- Signature program `Program`: the fields `mCode` and `mParameter` that
Transaction.cpp reads and writes (lines 124, 134-140, 156, 173). -/
structure Program where
  mCode : CMBlock
  mParameter : CMBlock
deriving DecidableEq, Repr

/-- `Attribute`: the fields `mUsage` and `mData` used by Attribute.cpp. -/
structure Attribute where
  mUsage : Nat
  mData : CMBlock
deriving DecidableEq, Repr

/-- `Transaction`, with the members initialised by its constructor (Transaction.cpp,
lines 10-19) and its five owned collections.  The classes `UTXOInput`, `TxOutput` and
`CrossChainAsset` are not part of the sources: they are the type parameters
`I`, `O` and `X`. -/
structure Transaction (I O X : Type) where
  mTxVersion : Nat
  mType : Nat
  mPayloadVersion : Nat
  mLockTime : Nat
  mFee : Nat
  mTxHash : UInt256
  mInputs : List I
  mOutputs : List O
  mAttributes : List Attribute
  mPrograms : List Program
  mCrossChainAssets : List X

/-- Everything Transaction.cpp calls but does not define: the variable-length integer
encoding of `ByteStream`, the `Serialize` member of each collaborator class, the
primitives of `BRCrypto.h`, `Utils::getCode`, and the constants `ELA_MULTISIG`,
`TransferAsset`, `TransferCrossChainAsset` and `TX_LOCKTIME`.

The three size fields record buffer sizes fixed by the callers in Transaction.cpp:
`publicKey.Resize(33)` (lines 70, 107), `CMBlock shaData(sizeof(UInt256))` (line 97)
and `signedData.Resize(65)` (line 79); the primitives only fill these buffers. -/
structure Provider (I O X : Type) where
  /-- Bytes written by `ByteStream::writeVarUint` / `ByteStream::putVarUint`. -/
  varUint : Nat → List Nat
  /-- Bytes appended by `UTXOInput::Serialize`. -/
  inputSerialize : I → List Nat
  /-- Bytes appended by `TxOutput::Serialize(ostream, txVersion)`. -/
  outputSerialize : O → Nat → List Nat
  /-- Bytes appended by `CrossChainAsset::Serialize`. -/
  crossChainAssetSerialize : X → List Nat
  /-- Bytes appended by `Program::Serialize`. -/
  programSerialize : Program → List Nat
  /-- Content of the 33-byte buffer filled by `getPubKeyFromPrivKey`. -/
  getPubKeyFromPrivKey : CMBlock → CMBlock
  /-- Content of the 32-byte buffer filled by `BRSHA256` (one round of SHA-256). -/
  BRSHA256 : List Nat → List Nat
  /-- Content of the 65-byte buffer filled by `ECDSA65Sign_sha256 (privateKey, digest)`. -/
  ECDSA65Sign_sha256 : CMBlock → UInt256 → CMBlock
  /-- Value of `ECDSA65Verify_sha256 (pubKey, digest, signature) != 0`. -/
  ECDSA65Verify_sha256 : CMBlock → UInt256 → CMBlock → Bool
  /-- Script built by `Utils::getCode` from a public key. -/
  getCode : CMBlock → CMBlock
  /-- The multisig marker byte `ELA_MULTISIG`. -/
  ELA_MULTISIG : Nat
  /-- The transaction type `TransferAsset`. -/
  TransferAsset : Nat
  /-- The transaction type `TransferCrossChainAsset`. -/
  TransferCrossChainAsset : Nat
  /-- The default lock time `TX_LOCKTIME`. -/
  TX_LOCKTIME : Nat
  pubKey_size : ∀ k, (getPubKeyFromPrivKey k).length = 33
  sha_size : ∀ d, (BRSHA256 d).length = 32
  sign_size : ∀ k d, (ECDSA65Sign_sha256 k d).length = SIGNATURE_SCRIPT_LENGTH

variable {I O X : Type}

/-- `Transaction::Transaction()` (Transaction.cpp, lines 10-19). -/
def Transaction.new (E : Provider I O X) : Transaction I O X :=
  { mTxVersion := 0
    mType := E.TransferAsset
    mPayloadVersion := 0
    mLockTime := E.TX_LOCKTIME
    mFee := 0
    mTxHash := UINT256_ZERO
    mInputs := []
    mOutputs := []
    mAttributes := []
    mPrograms := []
    mCrossChainAssets := [] }

/-! ## Binary writer -/

/-- Modelled from the spec: `ByteStream`, the append-only byte sink of section 2 and
section 6 (its class is not part of the sources); `buf` is the accumulated buffer. -/
structure ByteStream where
  buf : List Nat
deriving DecidableEq, Repr

/-- Modelled from the spec: a freshly constructed `ByteStream` holds no byte. -/
def ByteStream.empty : ByteStream := ⟨[]⟩

/-- Modelled from the spec: `getBuffer()` returns the accumulated bytes. -/
def ByteStream.getBuffer (s : ByteStream) : CMBlock := s.buf

/-- Modelled from the spec: `writeBytes(buf, len)` appends the given bytes. -/
def ByteStream.writeBytes (s : ByteStream) (bytes : List Nat) : ByteStream :=
  ⟨s.buf ++ bytes⟩

/-- Modelled from the spec: `putBytes(buf, len)` appends the given bytes. -/
def ByteStream.putBytes (s : ByteStream) (bytes : List Nat) : ByteStream :=
  ⟨s.buf ++ bytes⟩

/-- Modelled from the spec: `put(byte)` appends one byte. -/
def ByteStream.put (s : ByteStream) (b : Nat) : ByteStream :=
  ⟨s.buf ++ [b % 256]⟩

/-- Modelled from the spec: `writeVarUint(n)` appends the variable-length encoding
of `n`. -/
def ByteStream.writeVarUint (E : Provider I O X) (s : ByteStream) (n : Nat) : ByteStream :=
  ⟨s.buf ++ E.varUint n⟩

/-- Modelled from the spec: `putVarUint(n)` appends the variable-length encoding
of `n`. -/
def ByteStream.putVarUint (E : Provider I O X) (s : ByteStream) (n : Nat) : ByteStream :=
  ⟨s.buf ++ E.varUint n⟩

/-- The four bytes of a 32-bit unsigned integer, least significant first. -/
def uint32Bytes (n : Nat) : List Nat :=
  [n % 256, n / 256 % 256, n / 65536 % 256, n / 16777216 % 256]

/-- Modelled from the spec: `writeUint32(n)` appends `n` as a fixed 4-byte
little-endian unsigned integer. -/
def ByteStream.writeUint32 (s : ByteStream) (n : Nat) : ByteStream :=
  ⟨s.buf ++ uint32Bytes n⟩

/-! ## Collaborator serializers -/

/-- `Attribute::Serialize` (Attribute.cpp, lines 4-10). -/
def Attribute.Serialize (E : Provider I O X) (a : Attribute) (ostream : ByteStream) :
    ByteStream :=
  let ostream := ostream.put a.mUsage
  let ostream := ostream.putVarUint E a.mData.length
  ostream.putBytes a.mData

/-- Modelled from the spec: `UTXOInput::Serialize` appends the input's own bytes. -/
def UTXOInput.Serialize (E : Provider I O X) (input : I) (ostream : ByteStream) :
    ByteStream :=
  ostream.putBytes (E.inputSerialize input)

/-- Modelled from the spec: `TxOutput::Serialize` appends the output's bytes for the
transaction version it is told. -/
def TxOutput.Serialize (E : Provider I O X) (output : O) (ostream : ByteStream)
    (txVersion : Nat) : ByteStream :=
  ostream.putBytes (E.outputSerialize output txVersion)

/-- Modelled from the spec: `CrossChainAsset::Serialize` appends the entry's own bytes. -/
def CrossChainAsset.Serialize (E : Provider I O X) (asset : X) (ostream : ByteStream) :
    ByteStream :=
  ostream.putBytes (E.crossChainAssetSerialize asset)

/-- Modelled from the spec: `Program::Serialize` appends the program's bytes. -/
def Program.Serialize (E : Provider I O X) (program : Program) (ostream : ByteStream) :
    ByteStream :=
  ostream.putBytes (E.programSerialize program)

/-! ## Serialization, hashing and signing -/

/-- `Transaction::SerializeUnsigned` (Transaction.cpp, lines 226-260). -/
def Transaction.SerializeUnsigned (E : Provider I O X) (tx : Transaction I O X)
    (ostream : ByteStream) : ByteStream :=
  let ostream :=
    if tx.mTxVersion ≠ 0 then ostream.writeBytes [tx.mTxVersion % 256] else ostream
  let ostream := ostream.writeBytes [tx.mType % 256]
  let ostream := ostream.writeBytes [tx.mPayloadVersion % 256]
  let ostream :=
    if tx.mCrossChainAssets.length > 0 then
      tx.mCrossChainAssets.foldl (fun s asset => CrossChainAsset.Serialize E asset s)
        (ostream.putVarUint E tx.mCrossChainAssets.length)
    else ostream
  let ostream := ostream.writeVarUint E tx.mAttributes.length
  let ostream := tx.mAttributes.foldl (fun s attr => attr.Serialize E s) ostream
  let ostream := ostream.writeVarUint E tx.mInputs.length
  let ostream := tx.mInputs.foldl (fun s input => UTXOInput.Serialize E input s) ostream
  let ostream := ostream.writeVarUint E tx.mOutputs.length
  let ostream :=
    tx.mOutputs.foldl (fun s output => TxOutput.Serialize E output s tx.mTxVersion) ostream
  ostream.writeUint32 tx.mLockTime

/-- `Transaction::Serialize` (Transaction.cpp, lines 56-65). -/
def Transaction.Serialize (E : Provider I O X) (tx : Transaction I O X)
    (ostream : ByteStream) : ByteStream :=
  let ostream := tx.SerializeUnsigned E ostream
  let ostream := ostream.writeVarUint E tx.mPrograms.length
  tx.mPrograms.foldl (fun s program => program.Serialize E s) ostream

/-- Modelled from the spec: `BRSHA256_2`, the double round `hash(hash(data))` of the
hash primitive (section 4.3). -/
def BRSHA256_2 (E : Provider I O X) (data : List Nat) : UInt256 :=
  E.BRSHA256 (E.BRSHA256 data)

/-- `Transaction::GetHash` (Transaction.cpp, lines 44-54): the digest returned and the
transaction with its updated cache. -/
def Transaction.GetHash (E : Provider I O X) (tx : Transaction I O X) :
    UInt256 × Transaction I O X :=
  let emptyHash := UINT256_ZERO
  if UInt256Eq tx.mTxHash emptyHash then
    let ostream := tx.SerializeUnsigned E ByteStream.empty
    let buff := ostream.getBuffer
    let tx := { tx with mTxHash := BRSHA256_2 E buff }
    (tx.mTxHash, tx)
  else
    (tx.mTxHash, tx)

/-- `Transaction::GetSHAData` (Transaction.cpp, lines 88-100). -/
def Transaction.GetSHAData (E : Provider I O X) (tx : Transaction I O X) : CMBlock :=
  let ostream := tx.SerializeUnsigned E ByteStream.empty
  let data := ostream.getBuffer
  E.BRSHA256 data

/-- The read of a private key through the cast `(UInt256 *)(uint8_t *)privateKey`
(Transaction.cpp, lines 71 and 108): the callee reads 32 bytes whatever the size of the
buffer; `none` when the buffer has fewer than 32 bytes (a read outside it). -/
def readUInt256 (block : CMBlock) : Option UInt256 :=
  if 32 ≤ block.length then some (block.take 32) else none

/-- `Transaction::SignData` (Transaction.cpp, lines 67-86); `none` is the read of line 71
outside a private key shorter than 32 bytes.  The public key of line 71 is only
printed. -/
def Transaction.SignData (E : Provider I O X) (tx : Transaction I O X)
    (privateKey : CMBlock) : Option CMBlock :=
  match readUInt256 privateKey with
  | none => none
  | some secret =>
    let _publicKey := E.getPubKeyFromPrivKey secret
    let shaData := tx.GetSHAData E
    some (E.ECDSA65Sign_sha256 privateKey shaData)

/-- `Transaction::Sign` (Transaction.cpp, lines 102-116); `none` is a read outside a
private key shorter than 32 bytes (lines 71 and 108). -/
def Transaction.Sign (E : Provider I O X) (tx : Transaction I O X)
    (privateKey : CMBlock) : Option (Transaction I O X) :=
  match tx.SignData E privateKey with
  | none => none
  | some signedData =>
    match readUInt256 privateKey with
    | none => none
    | some secret =>
      let publicKey := E.getPubKeyFromPrivKey secret
      let code := E.getCode publicKey
      let program : Program := ⟨code, signedData⟩
      some { tx with mPrograms := tx.mPrograms ++ [program] }

/-- `Transaction::MultiSign` (Transaction.cpp, lines 118-141); `none` is the read of
`SignData` outside a private key shorter than 32 bytes. -/
def Transaction.MultiSign (E : Provider I O X) (tx : Transaction I O X)
    (privateKey redeemScript : CMBlock) : Option (Transaction I O X) :=
  let tx :=
    if tx.mPrograms.isEmpty then
      let program : Program := ⟨redeemScript, []⟩
      { tx with mPrograms := tx.mPrograms ++ [program] }
    else tx
  if tx.mPrograms.length ≠ 1 then some tx
  else
    match tx.mPrograms with
    | program0 :: rest =>
      let stream := ByteStream.empty
      let stream :=
        if program0.mParameter.length > 0 then stream.putBytes program0.mParameter
        else stream
      match tx.SignData E privateKey with
      | none => none
      | some signedData =>
        let stream := stream.putBytes signedData
        some { tx with mPrograms := { program0 with mParameter := stream.getBuffer } :: rest }
    | [] => some tx

/-! ## Hexadecimal text -/

/-- Modelled from the spec: the lower-case hexadecimal digit of a value below 16
(`Utils` is not part of the sources). -/
def hexDigit (n : Nat) : Char :=
  if n < 10 then Char.ofNat (48 + n) else Char.ofNat (87 + n)

/-- Modelled from the spec: the value of a hexadecimal digit, 0 for any other
character. -/
def hexValue (c : Char) : Nat :=
  let n := c.toNat
  if 48 ≤ n ∧ n ≤ 57 then n - 48
  else if 97 ≤ n ∧ n ≤ 102 then n - 87
  else if 65 ≤ n ∧ n ≤ 70 then n - 55
  else 0

/-- Two hexadecimal digits per byte, high digit first. -/
def encodeHexChars : List Nat → List Char
  | [] => []
  | b :: bs => hexDigit (b / 16 % 16) :: hexDigit (b % 16) :: encodeHexChars bs

/-- One byte per pair of hexadecimal digits. -/
def decodeHexChars : List Char → List Nat
  | hi :: lo :: cs => (16 * hexValue hi + hexValue lo) :: decodeHexChars cs
  | _ => []

/-- Modelled from the spec: `Utils::encodeHex`, the hex-encoded text of a byte
buffer. -/
def Utils.encodeHex (data : CMBlock) : String := String.mk (encodeHexChars data)

/-- Modelled from the spec: `Utils::decodeHex`, the bytes of a hex-encoded text. -/
def Utils.decodeHex (text : String) : CMBlock := decodeHexChars text.data

/-! ## Signer recovery -/

/-- Number of values of `size_t` (64 bits). -/
def SIZE_MODULUS : Nat := 2 ^ 64

/-- Subtraction `a - b` of two `size_t` values: the difference when `b ≤ a`, and
otherwise the value it wraps around to, `2 ^ 64 - (b - a)`. -/
def sizeSub (a b : Nat) : Nat := if b ≤ a then a - b else SIZE_MODULUS - (b - a)

/-- `Transaction::Verify` (Transaction.cpp, lines 190-195). -/
def Transaction.Verify (E : Provider I O X) (publicKey : String) (messageDigest : UInt256)
    (signature : CMBlock) : Bool :=
  let pubKey := Utils.decodeHex publicKey
  E.ECDSA65Verify_sha256 pubKey messageDigest signature

/-- The script walk of `Transaction::GetSignedSigner` (Transaction.cpp, lines 162-167):
the loop `for (int i = 1; i < code.GetSize() - 2;)` from offset `i` with the signers
collected so far.  The first argument bounds the number of iterations; `none` is a read
outside `code` (or an exhausted bound, which `code.length + 1` never is). -/
def collectSigners (code : CMBlock) : Nat → Nat → List String → Option (List String)
  | 0, _, _ => none
  | fuel + 1, i, signers =>
    if i < sizeSub code.length 2 then
      match code[i]? with
      | none => none
      | some size =>
        if i + 1 + size ≤ code.length then
          collectSigners code fuel (i + size + 1)
            (signers ++ [Utils.encodeHex ((code.drop (i + 1)).take size)])
        else none
    else some signers

/-- The inner loop of `Transaction::GetSignedSigner` (Transaction.cpp, lines 180-184):
every signer that verifies against the chunk is pushed on `signedSigners`. -/
def pushVerified (E : Provider I O X) (signers : List String) (md : UInt256)
    (signature : CMBlock) (signedSigners : List String) : List String :=
  signers.foldl
    (fun acc signer => if Transaction.Verify E signer md signature then acc ++ [signer] else acc)
    signedSigners

/-- The chunk loop of `Transaction::GetSignedSigner` (Transaction.cpp, lines 176-185):
`for (int i = 0; i < parameter.GetSize(); i += SIGNATURE_SCRIPT_LENGTH)` from offset `i`.
The first argument bounds the number of iterations; `none` is a `memcpy` that reads
outside `parameter` (or an exhausted bound, which `parameter.length + 1` never is). -/
def collectSigned (E : Provider I O X) (signers : List String) (md : UInt256)
    (parameter : CMBlock) : Nat → Nat → List String → Option (List String)
  | 0, _, _ => none
  | fuel + 1, i, signedSigners =>
    if i < parameter.length then
      if i + SIGNATURE_SCRIPT_LENGTH ≤ parameter.length then
        let signature := (parameter.drop i).take SIGNATURE_SCRIPT_LENGTH
        collectSigned E signers md parameter fuel (i + SIGNATURE_SCRIPT_LENGTH)
          (pushVerified E signers md signature signedSigners)
      else none
    else some signedSigners

/-- `Transaction::GetSignedSigner` (Transaction.cpp, lines 143-188); `none` is a read
outside a buffer. -/
def Transaction.GetSignedSigner (E : Provider I O X) (tx : Transaction I O X) :
    Option (List String) :=
  if tx.mPrograms.length > 1 then some []
  else if tx.mPrograms.length = 0 then some []
  else
    match tx.mPrograms with
    | [] => some []
    | program :: _ =>
      let code := program.mCode
      match code[sizeSub code.length 1]? with
      | none => none
      | some last =>
        if last ≠ E.ELA_MULTISIG then some []
        else
          match collectSigners code (code.length + 1) 1 [] with
          | none => none
          | some signers =>
            let shaData := tx.GetSHAData E
            let md := shaData.take 32
            let parameter := program.mParameter
            collectSigned E signers md parameter (parameter.length + 1) 0 []

/-! ## A concrete provider

A small provider on which the operations can be evaluated: inputs, outputs and
cross-chain entries are raw byte lists, a digest is the byte sum of the data, a
signature is the signer's public key followed by the digest. -/

/-- A buffer cut or zero-filled to 32 bytes. -/
def fit32 (d : List Nat) : List Nat := (d ++ List.replicate 32 0).take 32

/-- Public key of the concrete provider: the byte sum of the private key, then 32
bytes of value 2. -/
def demoPubKey (k : CMBlock) : CMBlock := (k.sum % 256) :: List.replicate 32 2

/-- The concrete provider. -/
def demoProvider : Provider (List Nat) (List Nat) (List Nat) where
  varUint n := [n % 256]
  inputSerialize i := i
  outputSerialize o v := (v % 256) :: o
  crossChainAssetSerialize x := x
  programSerialize p :=
    (p.mCode.length % 256) :: p.mCode ++ (p.mParameter.length % 256) :: p.mParameter
  getPubKeyFromPrivKey := demoPubKey
  BRSHA256 d := (d.sum % 256) :: List.replicate 31 0
  ECDSA65Sign_sha256 k d := demoPubKey k ++ fit32 d
  ECDSA65Verify_sha256 p d s := s == p ++ fit32 d
  getCode p := 33 :: p ++ [172]
  ELA_MULTISIG := 174
  TransferAsset := 2
  TransferCrossChainAsset := 8
  TX_LOCKTIME := 0
  pubKey_size := by intro k; simp [demoPubKey]
  sha_size := by intro d; simp
  sign_size := by intro k d; simp [demoPubKey, fit32, SIGNATURE_SCRIPT_LENGTH]

/-- A transaction of the concrete provider: version 9, one attribute, one input,
one output, no program, cache unset. -/
def demoTx : Transaction (List Nat) (List Nat) (List Nat) :=
  { mTxVersion := 9
    mType := 2
    mPayloadVersion := 0
    mLockTime := 258
    mFee := 100
    mTxHash := UINT256_ZERO
    mInputs := [[1, 2, 3]]
    mOutputs := [[7, 7]]
    mAttributes := [⟨0, [5, 6]⟩]
    mPrograms := []
    mCrossChainAssets := [] }

/-! ## Closed forms used in the statements -/

/-- The bytes `Attribute::Serialize` appends: usage byte, length of the data as a
variable-length integer, the data. -/
def Attribute.bytes (E : Provider I O X) (a : Attribute) : List Nat :=
  [a.mUsage % 256] ++ E.varUint a.mData.length ++ a.mData

/-- The unsigned payload in closed form, field by field in the order of
`Transaction::SerializeUnsigned`. -/
def Transaction.unsignedPayload (E : Provider I O X) (tx : Transaction I O X) : List Nat :=
  (if tx.mTxVersion = 0 then [] else [tx.mTxVersion % 256])
    ++ [tx.mType % 256]
    ++ [tx.mPayloadVersion % 256]
    ++ (if tx.mCrossChainAssets.length = 0 then []
        else E.varUint tx.mCrossChainAssets.length
          ++ (tx.mCrossChainAssets.map E.crossChainAssetSerialize).flatten)
    ++ E.varUint tx.mAttributes.length
    ++ (tx.mAttributes.map (Attribute.bytes E)).flatten
    ++ E.varUint tx.mInputs.length
    ++ (tx.mInputs.map E.inputSerialize).flatten
    ++ E.varUint tx.mOutputs.length
    ++ (tx.mOutputs.map (fun output => E.outputSerialize output tx.mTxVersion)).flatten
    ++ uint32Bytes tx.mLockTime

/-- A transaction of the concrete provider whose unsigned payload
`[2, 0, 0, 0, 0, 254, 0, 0, 0]` has the all-zero digest: version 0, no element in any
collection, lock time 254, cache unset. -/
def demoZeroTx : Transaction (List Nat) (List Nat) (List Nat) :=
  { mTxVersion := 0
    mType := 2
    mPayloadVersion := 0
    mLockTime := 254
    mFee := 0
    mTxHash := UINT256_ZERO
    mInputs := []
    mOutputs := []
    mAttributes := []
    mPrograms := []
    mCrossChainAssets := [] }

/-- The key entries of a redeem script: every public key preceded by its length byte. -/
def scriptKeys (keys : List CMBlock) : CMBlock :=
  (keys.map (fun key => key.length :: key)).flatten

/-- A redeem script of the shape header byte, key entries, count byte, marker byte. -/
def redeemScriptOf (header : Nat) (keys : List CMBlock) (count marker : Nat) : CMBlock :=
  header :: (scriptKeys keys ++ [count, marker])

/-- The first `n` consecutive chunks of `SIGNATURE_SCRIPT_LENGTH` bytes of a buffer. -/
def splitChunks : Nat → CMBlock → List CMBlock
  | 0, _ => []
  | n + 1, buffer =>
    buffer.take SIGNATURE_SCRIPT_LENGTH :: splitChunks n (buffer.drop SIGNATURE_SCRIPT_LENGTH)

/-- The whole 65-byte chunks of a parameter buffer of length `L`, in buffer order: the
bytes `[65 * j, 65 * j + 65)` for `j < L / 65`. -/
def signatureChunks (parameter : CMBlock) : List CMBlock :=
  splitChunks (parameter.length / SIGNATURE_SCRIPT_LENGTH) parameter

/-! ## Distinct private keys -/

/-- The test `memcmp(a, b, n) == 0`: whether the first `n` bytes of the two buffers are
equal; `none` when one of the buffers has fewer than `n` bytes (a read outside it). -/
def memcmpEq (a b : CMBlock) (n : Nat) : Option Bool :=
  if n ≤ a.length ∧ n ≤ b.length then some (a.take n == b.take n) else none

/-- The search loop of `Transaction::GetPrivateKeys` (Transaction.cpp, lines 209-215):
whether `memcmp` over the length of `key` finds `key` among the keys collected so far. -/
def findPrivateKey (key : CMBlock) : List CMBlock → Option Bool
  | [] => some false
  | collected :: rest =>
    match memcmpEq collected key key.length with
    | none => none
    | some true => some true
    | some false => findPrivateKey key rest

/-- The loop of `Transaction::GetPrivateKeys` over the inputs (Transaction.cpp,
lines 200-221), with the keys collected so far; `mPrivateKey` reads the member
`UTXOInput::mPrivateKey`. -/
def collectPrivateKeys (mPrivateKey : I → CMBlock) :
    List I → List CMBlock → Option (List CMBlock)
  | [], privateKeys => some privateKeys
  | input :: rest, privateKeys =>
    if (mPrivateKey input).length = 0 then collectPrivateKeys mPrivateKey rest privateKeys
    else if privateKeys.isEmpty then
      collectPrivateKeys mPrivateKey rest (privateKeys ++ [mPrivateKey input])
    else
      match findPrivateKey (mPrivateKey input) privateKeys with
      | none => none
      | some true => collectPrivateKeys mPrivateKey rest privateKeys
      | some false => collectPrivateKeys mPrivateKey rest (privateKeys ++ [mPrivateKey input])

/-- `Transaction::GetPrivateKeys` (Transaction.cpp, lines 197-224); `none` is a `memcmp`
that reads outside a key. -/
def Transaction.GetPrivateKeys (mPrivateKey : I → CMBlock) (tx : Transaction I O X) :
    Option (List CMBlock) :=
  collectPrivateKeys mPrivateKey tx.mInputs []

/-! ## Structured records -/

/-- A value of `nlohmann::json`, the structured record of the import and export
functions.  Numbers are the unsigned integers these functions read and write. -/
inductive Json where
  | null : Json
  | bool (value : Bool) : Json
  | number (value : Nat) : Json
  | string (value : String) : Json
  | array (items : List Json) : Json
  | object (members : List (String × Json)) : Json

/-- The value stored under a key in a list of object members. -/
def lookupMember (key : String) : List (String × Json) → Option Json
  | [] => none
  | (k, v) :: rest => if k = key then some v else lookupMember key rest

/-- The test `jsonData.find(key) != jsonData.end()` together with the value found: the
member of an object under `key`; `none` when the key is absent or the value is not an
object. -/
def Json.find : Json → String → Option Json
  | .object members, key => lookupMember key members
  | _, _ => none

/-- The read `jsonData[key]` on a constant record: the member found; `none` is the
undefined read of an absent key. -/
def Json.at (jsonData : Json) (key : String) : Option Json := jsonData.find key

/-- The members of an object other than those under `key`. -/
def removeMember (key : String) : List (String × Json) → List (String × Json)
  | [] => []
  | (k, v) :: rest =>
    if k = key then removeMember key rest else (k, v) :: removeMember key rest

/-- The assignment `jsonData[key] = value`, on `null` or on an object (the values
`ToJson` applies it to; any other value is treated like `null`): the member is replaced
or added. -/
def Json.set : Json → String → Json → Json
  | .object members, key, value => .object (removeMember key members ++ [(key, value)])
  | _, key, value => .object [(key, value)]

/-- The conversion to `std::vector<nlohmann::json>`: the items of an array; `none` is
the exception thrown for any other value. -/
def Json.asVector : Json → Option (List Json)
  | .array items => some items
  | _ => none

/-- The conversion `get<std::string>()`: the text of a string; `none` is the exception
thrown for any other value. -/
def Json.asString : Json → Option String
  | .string value => some value
  | _ => none

/-- The conversion `get<Attribute::Usage>()`: the value of a number; `none` is the
exception thrown for any other value. -/
def Json.asUsage : Json → Option Nat
  | .number value => some value
  | _ => none

/-- The UTF-8 bytes of a character. -/
def utf8Bytes (c : Char) : List Nat :=
  let n := c.toNat
  if n < 128 then [n]
  else if n < 2048 then [192 + n / 64, 128 + n % 64]
  else if n < 65536 then [224 + n / 4096, 128 + n / 64 % 64, 128 + n % 64]
  else [240 + n / 262144, 128 + n / 4096 % 64, 128 + n / 64 % 64, 128 + n % 64]

/-- The bytes of a `std::string`. -/
def stringBytes (text : String) : CMBlock := (text.data.map utf8Bytes).flatten

/-- Modelled from the spec: the constructor `Attribute(usage, text)`, an attribute of
the given kind whose data is the bytes of the text (Attribute.h is not part of the
sources). -/
def Attribute.ofText (usage : Nat) (text : String) : Attribute := ⟨usage, stringBytes text⟩

/-- What the import and export functions of Transaction.cpp call but do not define: the
values of `Attribute::Usage`, the `FromJson` and `ToJson` members of the collaborator
classes (`FromJson` taken together with the constructor call that precedes it),
`TxOutput::GetVersion` and `nlohmann::json::dump`. -/
structure Records (I O X : Type) where
  /-- The usage `Attribute::Usage::Nonce`. -/
  Nonce : Nat
  /-- The usage `Attribute::Usage::Memo`. -/
  Memo : Nat
  /-- The usage `Attribute::Usage::Description`. -/
  Description : Nat
  /-- The input made by `new UTXOInput()` and `FromJson`. -/
  inputFromJson : Json → I
  /-- The output made by `new TxOutput(assertId)` and `FromJson`. -/
  outputFromJson : String → Json → O
  /-- The program made by `new Program()` and `FromJson`. -/
  programFromJson : Json → Program
  /-- The entry made by `new CrossChainAsset(index)` and `FromJson`. -/
  crossChainAssetFromJson : Nat → Json → X
  /-- Record made by `UTXOInput::ToJson`. -/
  inputToJson : I → Json
  /-- Record made by `TxOutput::ToJson`. -/
  outputToJson : O → Json
  /-- Record made by `Program::ToJson`. -/
  programToJson : Program → Json
  /-- Record made by `CrossChainAsset::ToJson`. -/
  crossChainAssetToJson : X → Json
  /-- Value of `TxOutput::GetVersion`. -/
  outputVersion : O → Nat
  /-- Text made by `nlohmann::json::dump`. -/
  dump : Json → String

/-- `Attribute::FromJson` (Attribute.cpp, lines 12-16); `none` is an absent key or a
failed conversion. -/
def Attribute.FromJson (jsonData : Json) : Option Attribute :=
  match jsonData.at "usage" with
  | none => none
  | some jUsage =>
    match jUsage.asUsage with
    | none => none
    | some usage =>
      match jsonData.at "data" with
      | none => none
      | some jData =>
        match jData.asString with
        | none => none
        | some text => some ⟨usage, Utils.decodeHex text⟩

/-- `Attribute::ToJson` (Attribute.cpp, lines 18-25). -/
def Attribute.ToJson (a : Attribute) : Json :=
  let jsonData := Json.null
  let jsonData := jsonData.set "usage" (Json.number a.mUsage)
  let jsonData := jsonData.set "data" (Json.string (Utils.encodeHex a.mData))
  jsonData

/-- `Transaction::FromJson`, the inputs (Transaction.cpp, lines 264-272). -/
def importInputs (R : Records I O X) (tx : Transaction I O X) (jsonData : Json) :
    Option (Transaction I O X) :=
  match jsonData.at "UTXOInputs" with
  | none => none
  | some jInputs =>
    match jInputs.asVector with
    | none => none
    | some jUtxoInputs =>
      some (jUtxoInputs.foldl
        (fun tx utxoInput => { tx with mInputs := tx.mInputs ++ [R.inputFromJson utxoInput] })
        tx)

/-- `Transaction::FromJson`, the outputs (Transaction.cpp, lines 274-281). -/
def importOutputs (R : Records I O X) (tx : Transaction I O X) (jsonData : Json)
    (assertId : String) : Option (Transaction I O X) :=
  match jsonData.at "Outputs" with
  | none => none
  | some jOutputs =>
    match jOutputs.asVector with
    | none => none
    | some jTxOuputs =>
      some (jTxOuputs.foldl
        (fun tx txOutput =>
          { tx with mOutputs := tx.mOutputs ++ [R.outputFromJson assertId txOutput] })
        tx)

/-- The loop of Transaction.cpp, lines 283-288, as a test: whether it meets an output of
version 9. -/
def hasVersion9 (R : Records I O X) : List O → Bool
  | [] => false
  | output :: rest => if R.outputVersion output = 9 then true else hasVersion9 R rest

/-- `Transaction::FromJson`, the version (Transaction.cpp, lines 283-288). -/
def adoptOutputVersion (R : Records I O X) (tx : Transaction I O X) : Transaction I O X :=
  if hasVersion9 R tx.mOutputs then { tx with mTxVersion := 9 } else tx

/-- `Transaction::FromJson`, the programs (Transaction.cpp, lines 290-300). -/
def importPrograms (R : Records I O X) (tx : Transaction I O X) (jsonData : Json) :
    Option (Transaction I O X) :=
  match jsonData.find "Programs" with
  | some jPrograms =>
    match jPrograms.asVector with
    | none => none
    | some programs =>
      some (programs.foldl
        (fun tx program => { tx with mPrograms := tx.mPrograms ++ [R.programFromJson program] })
        tx)
  | none => some tx

/-- The loop of Transaction.cpp, lines 305-311, over the records of the attributes. -/
def importAttributeList : List Json → Transaction I O X → Option (Transaction I O X)
  | [], tx => some tx
  | attr :: rest, tx =>
    match Attribute.FromJson attr with
    | none => none
    | some pAttr => importAttributeList rest { tx with mAttributes := tx.mAttributes ++ [pAttr] }

/-- `Transaction::FromJson`, the attributes (Transaction.cpp, lines 302-337). -/
def importAttributes (R : Records I O X) (tx : Transaction I O X) (jsonData : Json) :
    Option (Transaction I O X) :=
  match jsonData.find "Attributes" with
  | some jAttrs =>
    match jAttrs.asVector with
    | none => none
    | some attrs => importAttributeList attrs tx
  | none =>
    let memoRead : Option String :=
      match jsonData.find "Memo" with
      | some jMemo => jMemo.asString
      | none => some ""
    match memoRead with
    | none => none
    | some memo =>
      let pAttr := Attribute.ofText (if memo = "" then R.Nonce else R.Memo) memo
      let tx := { tx with mAttributes := tx.mAttributes ++ [pAttr] }
      match jsonData.find "Postmark" with
      | some postmarkObj =>
        let postmark := "\x7b\"Postmark\":" ++ R.dump postmarkObj ++ "\x7d"
        let pAttr := Attribute.ofText R.Description postmark
        some { tx with mAttributes := tx.mAttributes ++ [pAttr] }
      | none => some tx

/-- The loop of Transaction.cpp, lines 344-351, from the index `index`. -/
def importCrossChainAssetList (R : Records I O X) :
    List Json → Nat → Transaction I O X → Transaction I O X
  | [], _, tx => tx
  | crossChainAsset :: rest, index, tx =>
    importCrossChainAssetList R rest (index + 1)
      { tx with mCrossChainAssets :=
          tx.mCrossChainAssets ++ [R.crossChainAssetFromJson index crossChainAsset] }

/-- `Transaction::FromJson`, the cross-chain entries (Transaction.cpp, lines 339-352). -/
def importCrossChainAssets (E : Provider I O X) (R : Records I O X)
    (tx : Transaction I O X) (jsonData : Json) : Option (Transaction I O X) :=
  match jsonData.find "CrossChainAsset" with
  | some jCrossAssets =>
    let tx := { tx with mType := E.TransferCrossChainAsset }
    match jCrossAssets.asVector with
    | none => none
    | some crossChainAssets => some (importCrossChainAssetList R crossChainAssets 0 tx)
  | none => some tx

/-- `Transaction::FromJson` (Transaction.cpp, lines 262-354); `none` is an exception or
the read of an absent required key. -/
def Transaction.FromJson (E : Provider I O X) (R : Records I O X)
    (tx : Transaction I O X) (jsonData : Json) (assertId : String) :
    Option (Transaction I O X) :=
  match importInputs R tx jsonData with
  | none => none
  | some tx =>
    match importOutputs R tx jsonData assertId with
    | none => none
    | some tx =>
      let tx := adoptOutputVersion R tx
      match importPrograms R tx jsonData with
      | none => none
      | some tx =>
        match importAttributes R tx jsonData with
        | none => none
        | some tx => importCrossChainAssets E R tx jsonData

/-- `Transaction::ToJson` (Transaction.cpp, lines 356-402). -/
def Transaction.ToJson (R : Records I O X) (tx : Transaction I O X) : Json :=
  let jsonData := Json.null
  let inputs := tx.mInputs.foldl (fun inputs input => inputs ++ [R.inputToJson input]) []
  let jsonData := jsonData.set "UTXOInputs" (Json.array inputs)
  let outputs := tx.mOutputs.foldl (fun outputs output => outputs ++ [R.outputToJson output]) []
  let jsonData := jsonData.set "Outputs" (Json.array outputs)
  let jsonData :=
    if tx.mPrograms.length > 0 then
      let programs :=
        tx.mPrograms.foldl (fun programs program => programs ++ [R.programToJson program]) []
      jsonData.set "Programs" (Json.array programs)
    else jsonData
  let jsonData :=
    if tx.mAttributes.length > 0 then
      let attributes :=
        tx.mAttributes.foldl (fun attributes attr => attributes ++ [attr.ToJson]) []
      jsonData.set "Attributes" (Json.array attributes)
    else jsonData
  let jsonData :=
    if tx.mCrossChainAssets.length > 0 then
      let crossChainAssets :=
        tx.mCrossChainAssets.foldl
          (fun crossChainAssets crossChainAsset =>
            crossChainAssets ++ [R.crossChainAssetToJson crossChainAsset]) []
      jsonData.set "CrossChainAsset" (Json.array crossChainAssets)
    else jsonData
  jsonData

/-- The leading numbers of a list of records. -/
def demoNumbers : List Json → List Nat
  | .number n :: rest => n :: demoNumbers rest
  | _ => []

/-- The leading numbers of an array record. -/
def demoBytes : Json → List Nat
  | .array items => demoNumbers items
  | _ => []

/-- The concrete records: an input, an output and a cross-chain entry are the byte list
read from an array of numbers (the entry starts with its index), an output declares as
version its first byte, and a program is made from an array of two arrays. -/
def demoRecords : Records (List Nat) (List Nat) (List Nat) where
  Nonce := 0
  Memo := 129
  Description := 145
  inputFromJson := demoBytes
  outputFromJson _ j := demoBytes j
  programFromJson j :=
    match j with
    | .array [code, parameter] => ⟨demoBytes code, demoBytes parameter⟩
    | _ => ⟨[], []⟩
  crossChainAssetFromJson index j := index :: demoBytes j
  inputToJson i := .array (i.map Json.number)
  outputToJson o := .array (o.map Json.number)
  programToJson p := .array [.array (p.mCode.map Json.number), .array (p.mParameter.map Json.number)]
  crossChainAssetToJson x := .array (x.map Json.number)
  outputVersion o := o.headD 0
  dump _ := "null"

/-- A record of the concrete records with no input, no output, the memo `x` and a
postmark. -/
def demoMemoPostmarkRecord : Json :=
  .object [("UTXOInputs", .array []), ("Outputs", .array []), ("Memo", .string "x"),
    ("Postmark", .object [])]

/-- A record of the concrete records with one input, two outputs (the second of
version 9), the memo `x` and two cross-chain entries. -/
def demoRecord : Json :=
  .object [("UTXOInputs", .array [.array [.number 1]]),
    ("Outputs", .array [.array [.number 0, .number 5], .array [.number 9]]),
    ("Memo", .string "x"),
    ("CrossChainAsset", .array [.array [.number 7], .array [.number 8]])]

/-- The transaction imported from `demoRecord` into a freshly constructed transaction. -/
def demoImported : Transaction (List Nat) (List Nat) (List Nat) :=
  { mTxVersion := 9
    mType := 8
    mPayloadVersion := 0
    mLockTime := 0
    mFee := 0
    mTxHash := UINT256_ZERO
    mInputs := [[1]]
    mOutputs := [[0, 5], [9]]
    mAttributes := [⟨129, [120]⟩]
    mPrograms := []
    mCrossChainAssets := [[0, 7], [1, 8]] }

/-- The content of the signature buffer that `SignData` returns for a private key of at
least 32 bytes: the signature of the single-round digest of the unsigned payload. -/
def Transaction.signatureOf (E : Provider I O X) (tx : Transaction I O X)
    (privateKey : CMBlock) : CMBlock :=
  E.ECDSA65Sign_sha256 privateKey (tx.GetSHAData E)

/-- A 32-byte private key of the concrete provider: the byte `n`, then 31 zero bytes. -/
def demoKey (n : Nat) : CMBlock := n :: List.replicate 31 0

/-- The signature of `demoTx` made with the private key `demoKey n` in the concrete
provider. -/
def demoSignature (n : Nat) : CMBlock :=
  demoProvider.ECDSA65Sign_sha256 (demoKey n) (demoTx.GetSHAData demoProvider)

/-- The concrete provider with another hash, which never returns the all-zero value: the
byte 1, the byte sum of the data, then 30 zero bytes. -/
def demoNonzeroProvider : Provider (List Nat) (List Nat) (List Nat) :=
  { demoProvider with
    BRSHA256 := fun d => 1 :: (d.sum % 256) :: List.replicate 30 0
    sha_size := by intro d; simp }

/-! ## Lemmas on the binary writer and the serializers -/

theorem foldl_append_buf {α : Type} (g : ByteStream → α → ByteStream) (f : α → List Nat)
    (h : ∀ s a, (g s a).buf = s.buf ++ f a) (l : List α) (s : ByteStream) :
    (l.foldl g s).buf = s.buf ++ (l.map f).flatten := by
  induction l generalizing s with
  | nil => simp
  | cons a l ih => simp [ih, h, List.append_assoc]

theorem attribute_bytes_appended (E : Provider I O X) (a : Attribute) (s : ByteStream) :
    (a.Serialize E s).buf = s.buf ++ a.bytes E := by
  simp [Attribute.Serialize, Attribute.bytes, ByteStream.put, ByteStream.putVarUint,
    ByteStream.putBytes]

theorem SerializeUnsigned_buf (E : Provider I O X) (tx : Transaction I O X)
    (s : ByteStream) :
    (tx.SerializeUnsigned E s).buf = s.buf ++ tx.unsignedPayload E := by
  unfold Transaction.SerializeUnsigned Transaction.unsignedPayload
  simp only [ByteStream.writeUint32, ByteStream.writeVarUint]
  rw [foldl_append_buf _ (fun output => E.outputSerialize output tx.mTxVersion)
    (by intro s a; rfl)]
  simp only []
  rw [foldl_append_buf _ E.inputSerialize (by intro s a; rfl)]
  simp only []
  rw [foldl_append_buf _ (Attribute.bytes E) (by intro s a; exact attribute_bytes_appended E a s)]
  simp only [ByteStream.writeBytes]
  by_cases hv : tx.mTxVersion = 0 <;> cases hx : tx.mCrossChainAssets with
  | nil => simp [hv]
  | cons x xs =>
    simp only [List.length_cons, Nat.succ_pos, gt_iff_lt, if_true, Nat.zero_lt_succ]
    rw [foldl_append_buf _ E.crossChainAssetSerialize (by intro s a; rfl)]
    simp [hv, ByteStream.putVarUint, List.append_assoc]

theorem SerializeUnsigned_getBuffer (E : Provider I O X) (tx : Transaction I O X) :
    (tx.SerializeUnsigned E ByteStream.empty).getBuffer = tx.unsignedPayload E := by
  simp [ByteStream.getBuffer, SerializeUnsigned_buf, ByteStream.empty]

theorem Serialize_buf (E : Provider I O X) (tx : Transaction I O X) (s : ByteStream) :
    (tx.Serialize E s).buf = s.buf ++ tx.unsignedPayload E
      ++ E.varUint tx.mPrograms.length ++ (tx.mPrograms.map E.programSerialize).flatten := by
  unfold Transaction.Serialize
  simp only []
  rw [foldl_append_buf _ E.programSerialize (by intro s a; rfl)]
  simp [ByteStream.writeVarUint, SerializeUnsigned_buf]

/-! ## Unsigned payload and full serialization -/

/-- C1: `SerializeUnsigned` appends to the stream, in this order: the version byte only
when the version is not 0, the type byte, the payload-version byte, the cross-chain
entries (count as a varint, then each entry) only when there is at least one, the
attributes, the inputs and the outputs (each a varint count followed by every element
in list order, the outputs serialized for the transaction's version), and the lock time
on 4 bytes.  On an empty stream the first byte is the type byte when the version is 0,
and is 9 when the version is 9. -/
theorem SerializeUnsigned_appends_fields_in_order (E : Provider I O X)
    (tx : Transaction I O X) (ostream : ByteStream) :
    (tx.SerializeUnsigned E ostream).getBuffer =
        ostream.getBuffer
          ++ (if tx.mTxVersion = 0 then [] else [tx.mTxVersion % 256])
          ++ [tx.mType % 256]
          ++ [tx.mPayloadVersion % 256]
          ++ (if tx.mCrossChainAssets.length = 0 then []
              else E.varUint tx.mCrossChainAssets.length
                ++ (tx.mCrossChainAssets.map E.crossChainAssetSerialize).flatten)
          ++ E.varUint tx.mAttributes.length
          ++ (tx.mAttributes.map
                (fun a => [a.mUsage % 256] ++ E.varUint a.mData.length ++ a.mData)).flatten
          ++ E.varUint tx.mInputs.length
          ++ (tx.mInputs.map E.inputSerialize).flatten
          ++ E.varUint tx.mOutputs.length
          ++ (tx.mOutputs.map (fun output => E.outputSerialize output tx.mTxVersion)).flatten
          ++ uint32Bytes tx.mLockTime
      ∧ (uint32Bytes tx.mLockTime).length = 4
      ∧ (tx.mTxVersion = 0 →
          (tx.SerializeUnsigned E ByteStream.empty).getBuffer.head? = some (tx.mType % 256))
      ∧ (tx.mTxVersion = 9 →
          (tx.SerializeUnsigned E ByteStream.empty).getBuffer.head? = some 9) := by
  refine ⟨?_, rfl, ?_, ?_⟩
  · have hattr : (fun a : Attribute => [a.mUsage % 256] ++ E.varUint a.mData.length ++ a.mData)
        = Attribute.bytes E := rfl
    rw [ByteStream.getBuffer, SerializeUnsigned_buf, hattr]
    simp only [Transaction.unsignedPayload, ByteStream.getBuffer, List.append_assoc]
  · intro h
    simp [SerializeUnsigned_getBuffer, Transaction.unsignedPayload, h]
  · intro h
    simp [SerializeUnsigned_getBuffer, Transaction.unsignedPayload, h]

/-- C2: on an empty stream `Serialize` produces the bytes of `SerializeUnsigned`, then
the number of programs as a varint, then every program's serialization in list order;
so the unsigned payload is an initial segment of the full serialization, and with no
program the full serialization is the unsigned payload followed by the varint of 0. -/
theorem Serialize_is_unsigned_then_programs (E : Provider I O X)
    (tx : Transaction I O X) :
    (tx.Serialize E ByteStream.empty).getBuffer =
        (tx.SerializeUnsigned E ByteStream.empty).getBuffer
          ++ E.varUint tx.mPrograms.length
          ++ (tx.mPrograms.map
                (fun program => (program.Serialize E ByteStream.empty).getBuffer)).flatten
      ∧ (tx.SerializeUnsigned E ByteStream.empty).getBuffer
          <+: (tx.Serialize E ByteStream.empty).getBuffer
      ∧ (tx.mPrograms = [] →
          (tx.Serialize E ByteStream.empty).getBuffer =
            (tx.SerializeUnsigned E ByteStream.empty).getBuffer ++ E.varUint 0) := by
  have hprog : (fun program : Program => (program.Serialize E ByteStream.empty).getBuffer)
      = E.programSerialize := by
    funext program
    simp [Program.Serialize, ByteStream.putBytes, ByteStream.empty, ByteStream.getBuffer]
  have hfull : (tx.Serialize E ByteStream.empty).getBuffer =
      (tx.SerializeUnsigned E ByteStream.empty).getBuffer
        ++ E.varUint tx.mPrograms.length
        ++ (tx.mPrograms.map E.programSerialize).flatten := by
    simp [ByteStream.getBuffer, Serialize_buf, SerializeUnsigned_buf, ByteStream.empty]
  refine ⟨by rw [hprog]; exact hfull, ?_, ?_⟩
  · refine ⟨E.varUint tx.mPrograms.length ++ (tx.mPrograms.map E.programSerialize).flatten, ?_⟩
    rw [hfull, List.append_assoc]
  · intro h
    rw [hfull, h]
    simp

/-! ## Content hash -/

theorem GetHash_unset (E : Provider I O X) (tx : Transaction I O X)
    (h0 : tx.mTxHash = UINT256_ZERO) :
    tx.GetHash E =
      (BRSHA256_2 E (tx.unsignedPayload E),
        { tx with mTxHash := BRSHA256_2 E (tx.unsignedPayload E) }) := by
  simp [Transaction.GetHash, UInt256Eq, h0, SerializeUnsigned_getBuffer]

theorem GetHash_cached (E : Provider I O X) (tx : Transaction I O X)
    (h0 : tx.mTxHash ≠ UINT256_ZERO) :
    tx.GetHash E = (tx.mTxHash, tx) := by
  simp [Transaction.GetHash, UInt256Eq, h0]

theorem unsignedPayload_congr (E : Provider I O X) (a b : Transaction I O X)
    (hversion : a.mTxVersion = b.mTxVersion) (htype : a.mType = b.mType)
    (hpayload : a.mPayloadVersion = b.mPayloadVersion) (hlock : a.mLockTime = b.mLockTime)
    (hcross : a.mCrossChainAssets = b.mCrossChainAssets)
    (hattrs : a.mAttributes = b.mAttributes) (hinputs : a.mInputs = b.mInputs)
    (houtputs : a.mOutputs = b.mOutputs) :
    a.unsignedPayload E = b.unsignedPayload E := by
  unfold Transaction.unsignedPayload
  rw [hversion, htype, hpayload, hlock, hcross, hattrs, hinputs, houtputs]

/-- The unsigned payload of the concrete transaction `demoTx`. -/
theorem demoTx_payload :
    demoTx.unsignedPayload demoProvider = [9, 2, 0, 1, 0, 2, 5, 6, 1, 1, 2, 3, 1, 9, 7, 7, 2, 1, 0, 0] := by
  decide

/-- The sentinel test of `GetHash` with a hash that can return the all-zero value: in the
concrete provider, whose hash is a byte sum, the transaction `demoZeroTx` has an unset
cache and its first `GetHash` returns the all-zero value; after the lock time is changed,
the second `GetHash` recomputes and returns a different digest. -/
theorem GetHash_zero_digest_is_recomputed :
    demoZeroTx.mTxHash = UINT256_ZERO
      ∧ (demoZeroTx.GetHash demoProvider).1 =
          BRSHA256_2 demoProvider
            (demoZeroTx.SerializeUnsigned demoProvider ByteStream.empty).getBuffer
      ∧ (Transaction.GetHash demoProvider
            { (demoZeroTx.GetHash demoProvider).2 with mLockTime := 255 }).1
          ≠ (demoZeroTx.GetHash demoProvider).1 := by
  decide

/-- For a transaction whose cached hash is the all-zero sentinel, the first `GetHash`
returns the double hash of the unsigned payload and stores it in the cache, changing no
other member; when that digest is not itself the all-zero sentinel, `GetHash` on any
transaction holding this cache (whatever its other members have become) returns the same
digest and changes nothing. -/
theorem GetHash_caches_nonzero_digest (E : Provider I O X) (tx : Transaction I O X)
    (hunset : tx.mTxHash = UINT256_ZERO)
    (hdigest :
      BRSHA256_2 E (tx.SerializeUnsigned E ByteStream.empty).getBuffer ≠ UINT256_ZERO) :
    (tx.GetHash E).1 = BRSHA256_2 E (tx.SerializeUnsigned E ByteStream.empty).getBuffer
      ∧ (tx.GetHash E).2 = { tx with mTxHash := (tx.GetHash E).1 }
      ∧ ∀ mutated : Transaction I O X, mutated.mTxHash = (tx.GetHash E).2.mTxHash →
          mutated.GetHash E = ((tx.GetHash E).1, mutated) := by
  rw [SerializeUnsigned_getBuffer] at hdigest ⊢
  rw [GetHash_unset E tx hunset]
  refine ⟨rfl, rfl, ?_⟩
  intro mutated hm
  simp only [] at hm
  rw [GetHash_cached E mutated (by rw [hm]; exact hdigest), hm]

/-- At the concrete transaction `demoTx` the digest is not zero, and after a first
`GetHash` the digest survives a change of lock time, inputs and outputs. -/
theorem GetHash_caches_nonzero_digest_witness :
    demoTx.mTxHash = UINT256_ZERO
      ∧ BRSHA256_2 demoProvider
          (demoTx.SerializeUnsigned demoProvider ByteStream.empty).getBuffer ≠ UINT256_ZERO
      ∧ (Transaction.GetHash demoProvider
            { (demoTx.GetHash demoProvider).2 with
                mLockTime := 0, mInputs := [], mOutputs := [[1]] }).1
          = (demoTx.GetHash demoProvider).1 :=
  ⟨rfl, by decide, by
    rw [(GetHash_caches_nonzero_digest demoProvider demoTx rfl (by decide)).2.2
      { (demoTx.GetHash demoProvider).2 with
          mLockTime := 0, mInputs := [], mOutputs := [[1]] } rfl]⟩

/-- C3: for a hash primitive that never returns the all-zero value (as is assumed of
SHA-256) and a transaction whose cached hash is the all-zero sentinel, the first `GetHash`
returns the double hash of the unsigned payload and stores it in the cache, changing no
other member; a second `GetHash`, on a transaction holding this cache whatever its version,
type, payload version, lock time, attributes, inputs, outputs and cross-chain entries have
become, returns the same digest from the cache and changes nothing. -/
theorem GetHash_second_call_returns_cached_digest (E : Provider I O X)
    (tx : Transaction I O X) (hunset : tx.mTxHash = UINT256_ZERO)
    (hsha : ∀ data, E.BRSHA256 data ≠ UINT256_ZERO) :
    (tx.GetHash E).1 = BRSHA256_2 E (tx.SerializeUnsigned E ByteStream.empty).getBuffer
      ∧ (tx.GetHash E).2 = { tx with mTxHash := (tx.GetHash E).1 }
      ∧ ∀ mutated : Transaction I O X, mutated.mTxHash = (tx.GetHash E).2.mTxHash →
          mutated.GetHash E = ((tx.GetHash E).1, mutated) :=
  GetHash_caches_nonzero_digest E tx hunset (hsha _)

/-- C3, at the concrete transaction `demoTx` with a hash that never returns the all-zero
value: after a first `GetHash` the digest survives a change of version, type, lock time,
attributes, inputs, outputs and cross-chain entries. -/
theorem GetHash_second_call_returns_cached_digest_witness :
    (Transaction.GetHash demoNonzeroProvider
        { (demoTx.GetHash demoNonzeroProvider).2 with
            mTxVersion := 0, mType := 8, mLockTime := 0, mAttributes := [], mInputs := [],
            mOutputs := [[1]], mCrossChainAssets := [[4]] }).1
      = (demoTx.GetHash demoNonzeroProvider).1 := by
  rw [(GetHash_second_call_returns_cached_digest demoNonzeroProvider demoTx rfl
    (by
      intro data h
      have h0 := congrArg List.head? h
      simp [demoNonzeroProvider, UINT256_ZERO, List.replicate] at h0)).2.2
    { (demoTx.GetHash demoNonzeroProvider).2 with
        mTxVersion := 0, mType := 8, mLockTime := 0, mAttributes := [], mInputs := [],
        mOutputs := [[1]], mCrossChainAssets := [[4]] } rfl]

/-- C5 (as stated, refuted): in the concrete provider, take `demoTx` after a first
`GetHash` and then a change of lock time to 7, and a second transaction built directly
with lock time 7.  Version, type, payload version, lock time, cross-chain entries,
attributes, inputs and outputs are equal, yet `GetHash` returns the stale cached digest
on the first and the digest of the current payload on the second. -/
theorem GetHash_differs_on_stale_cache :
    let stale : Transaction (List Nat) (List Nat) (List Nat) :=
      { (demoTx.GetHash demoProvider).2 with mLockTime := 7 }
    let fresh : Transaction (List Nat) (List Nat) (List Nat) :=
      { demoTx with mLockTime := 7 }
    stale.mTxVersion = fresh.mTxVersion ∧ stale.mType = fresh.mType
      ∧ stale.mPayloadVersion = fresh.mPayloadVersion ∧ stale.mLockTime = fresh.mLockTime
      ∧ stale.mCrossChainAssets = fresh.mCrossChainAssets
      ∧ stale.mAttributes = fresh.mAttributes ∧ stale.mInputs = fresh.mInputs
      ∧ stale.mOutputs = fresh.mOutputs
      ∧ (stale.GetHash demoProvider).1 ≠ (fresh.GetHash demoProvider).1 := by
  decide

/-- C5 (amended): two transactions with equal version, type, payload version, lock time,
cross-chain entries, attributes, inputs and outputs, each with a cached hash that is
either the all-zero sentinel or the double hash of its current unsigned payload, get the
same digest from `GetHash`, whatever their fee and their program lists are. -/
theorem GetHash_same_fields_same_digest (E : Provider I O X) (a b : Transaction I O X)
    (hversion : a.mTxVersion = b.mTxVersion) (htype : a.mType = b.mType)
    (hpayload : a.mPayloadVersion = b.mPayloadVersion) (hlock : a.mLockTime = b.mLockTime)
    (hcross : a.mCrossChainAssets = b.mCrossChainAssets)
    (hattrs : a.mAttributes = b.mAttributes) (hinputs : a.mInputs = b.mInputs)
    (houtputs : a.mOutputs = b.mOutputs)
    (hcacheA : a.mTxHash = UINT256_ZERO ∨
      a.mTxHash = BRSHA256_2 E (a.SerializeUnsigned E ByteStream.empty).getBuffer)
    (hcacheB : b.mTxHash = UINT256_ZERO ∨
      b.mTxHash = BRSHA256_2 E (b.SerializeUnsigned E ByteStream.empty).getBuffer) :
    (a.GetHash E).1 = (b.GetHash E).1 := by
  have hpay : a.unsignedPayload E = b.unsignedPayload E :=
    unsignedPayload_congr E a b hversion htype hpayload hlock hcross hattrs hinputs houtputs
  have key : ∀ t : Transaction I O X,
      (t.mTxHash = UINT256_ZERO ∨
        t.mTxHash = BRSHA256_2 E (t.SerializeUnsigned E ByteStream.empty).getBuffer) →
      (t.GetHash E).1 = BRSHA256_2 E (t.unsignedPayload E) := by
    intro t ht
    by_cases h0 : t.mTxHash = UINT256_ZERO
    · rw [GetHash_unset E t h0]
    · rw [GetHash_cached E t h0]
      rcases ht with ht | ht
      · exact absurd ht h0
      · rw [SerializeUnsigned_getBuffer] at ht
        exact ht
  rw [key a hcacheA, key b hcacheB, hpay]

/-- C5 (amended), at the concrete transaction `demoTx` with an unset cache against the
same transaction after `GetHash`, with another fee and one program. -/
theorem GetHash_same_fields_same_digest_witness :
    (demoTx.GetHash demoProvider).1 =
      (Transaction.GetHash demoProvider
        { (demoTx.GetHash demoProvider).2 with mFee := 5, mPrograms := [⟨[1], [2]⟩] }).1 :=
  GetHash_same_fields_same_digest demoProvider demoTx
    { (demoTx.GetHash demoProvider).2 with mFee := 5, mPrograms := [⟨[1], [2]⟩] }
    rfl rfl rfl rfl rfl rfl rfl rfl (Or.inl rfl) (Or.inr (by decide))

/-! ## Signing -/

theorem readUInt256_of_le (block : CMBlock) (h : 32 ≤ block.length) :
    readUInt256 block = some (block.take 32) := by
  simp [readUInt256, h]

theorem SignData_eq (E : Provider I O X) (tx : Transaction I O X) (privateKey : CMBlock)
    (hkey : 32 ≤ privateKey.length) :
    tx.SignData E privateKey = some (tx.signatureOf E privateKey) := by
  simp [Transaction.SignData, readUInt256, hkey, Transaction.signatureOf]

/-- With a private key of fewer than 32 bytes the read of line 71 falls outside the key. -/
theorem SignData_short (E : Provider I O X) (tx : Transaction I O X) (privateKey : CMBlock)
    (hkey : privateKey.length < 32) :
    tx.SignData E privateKey = none := by
  simp [Transaction.SignData, readUInt256, Nat.not_le.mpr hkey]

theorem signatureOf_frame (E : Provider I O X) (tx : Transaction I O X)
    (programs : List Program) (privateKey : CMBlock) :
    Transaction.signatureOf E { tx with mPrograms := programs } privateKey
      = tx.signatureOf E privateKey := rfl

theorem signatureOf_length (E : Provider I O X) (tx : Transaction I O X)
    (privateKey : CMBlock) : (tx.signatureOf E privateKey).length = 65 :=
  E.sign_size privateKey (tx.GetSHAData E)

theorem Sign_eq (E : Provider I O X) (tx : Transaction I O X) (privateKey : CMBlock)
    (hkey : 32 ≤ privateKey.length) :
    tx.Sign E privateKey =
      some { tx with mPrograms := tx.mPrograms ++
        [⟨E.getCode (E.getPubKeyFromPrivKey (privateKey.take 32)),
          tx.signatureOf E privateKey⟩] } := by
  simp [Transaction.Sign, SignData_eq E tx privateKey hkey, readUInt256, hkey]

theorem MultiSign_empty (E : Provider I O X) (tx : Transaction I O X)
    (privateKey redeemScript : CMBlock) (hkey : 32 ≤ privateKey.length)
    (hempty : tx.mPrograms = []) :
    tx.MultiSign E privateKey redeemScript =
      some { tx with mPrograms := [⟨redeemScript, tx.signatureOf E privateKey⟩] } := by
  obtain ⟨v, t, pv, lt, fee, h, ins, outs, attrs, progs, cross⟩ := tx
  simp only at hempty
  subst hempty
  simp [Transaction.MultiSign, SignData_eq _ _ _ hkey, ByteStream.empty, ByteStream.putBytes,
    ByteStream.getBuffer]
  rfl

theorem MultiSign_single (E : Provider I O X) (tx : Transaction I O X)
    (privateKey redeemScript code parameter : CMBlock) (hkey : 32 ≤ privateKey.length)
    (hone : tx.mPrograms = [⟨code, parameter⟩]) :
    tx.MultiSign E privateKey redeemScript =
      some { tx with mPrograms := [⟨code, parameter ++ tx.signatureOf E privateKey⟩] } := by
  obtain ⟨v, t, pv, lt, fee, h, ins, outs, attrs, progs, cross⟩ := tx
  simp only at hone
  subst hone
  cases parameter with
  | nil =>
    simp [Transaction.MultiSign, SignData_eq _ _ _ hkey, ByteStream.empty,
      ByteStream.putBytes, ByteStream.getBuffer, Transaction.signatureOf,
      Transaction.GetSHAData]
  | cons x xs =>
    simp [Transaction.MultiSign, SignData_eq _ _ _ hkey, ByteStream.empty,
      ByteStream.putBytes, ByteStream.getBuffer, Transaction.signatureOf,
      Transaction.GetSHAData]

theorem MultiSign_several (E : Provider I O X) (tx : Transaction I O X)
    (privateKey redeemScript : CMBlock) (hmany : 2 ≤ tx.mPrograms.length) :
    tx.MultiSign E privateKey redeemScript = some tx := by
  obtain ⟨v, t, pv, lt, fee, h, ins, outs, attrs, progs, cross⟩ := tx
  simp only at hmany
  match progs, hmany with
  | p :: q :: qs, _ => simp [Transaction.MultiSign]

theorem MultiSign_total (E : Provider I O X) (tx : Transaction I O X)
    (privateKey redeemScript : CMBlock) (hkey : 32 ≤ privateKey.length) :
    ∃ programs, tx.MultiSign E privateKey redeemScript
      = some { tx with mPrograms := programs } := by
  cases hp : tx.mPrograms with
  | nil => exact ⟨_, MultiSign_empty E tx privateKey redeemScript hkey hp⟩
  | cons p ps =>
    cases ps with
    | nil => exact ⟨_, MultiSign_single E tx privateKey redeemScript p.mCode p.mParameter hkey hp⟩
    | cons q qs =>
      refine ⟨tx.mPrograms, ?_⟩
      rw [MultiSign_several E tx privateKey redeemScript (by rw [hp]; simp)]

theorem MultiSign_twice (E : Provider I O X) (tx : Transaction I O X)
    (key1 key2 redeemScript : CMBlock) (hkey1 : 32 ≤ key1.length) (hkey2 : 32 ≤ key2.length)
    (hempty : tx.mPrograms = []) :
    (tx.MultiSign E key1 redeemScript).bind (fun once => once.MultiSign E key2 redeemScript) =
      some { tx with mPrograms :=
          [⟨redeemScript, tx.signatureOf E key1 ++ tx.signatureOf E key2⟩] } := by
  rw [MultiSign_empty E tx key1 redeemScript hkey1 hempty, Option.some_bind,
    MultiSign_single E _ key2 redeemScript redeemScript (tx.signatureOf E key1) hkey2 rfl]
  rfl

theorem GetHash_with_programs (E : Provider I O X) (tx : Transaction I O X)
    (programs : List Program) (hunset : tx.mTxHash = UINT256_ZERO) :
    (Transaction.GetHash E { tx with mPrograms := programs }).1
      = BRSHA256_2 E (tx.unsignedPayload E) := by
  rw [GetHash_unset E { tx with mPrograms := programs } hunset]
  rfl

/-- C4: for a transaction with an unset hash cache and a private key (of the 32 bytes
that lines 71 and 108 read, or more), `Sign` and `MultiSign` return a transaction on which
`GetHash` returns the digest that it returns on the same transaction with zero programs;
`Sign` and `MultiSign` leave the cached-hash member unchanged. -/
theorem GetHash_independent_of_programs (E : Provider I O X) (tx : Transaction I O X)
    (privateKey redeemScript : CMBlock) (hunset : tx.mTxHash = UINT256_ZERO)
    (hkey : 32 ≤ privateKey.length) :
    (tx.Sign E privateKey).map (fun signed => (signed.GetHash E).1) =
        some (Transaction.GetHash E { tx with mPrograms := [] }).1
      ∧ (tx.MultiSign E privateKey redeemScript).map (fun signed => (signed.GetHash E).1) =
        some (Transaction.GetHash E { tx with mPrograms := [] }).1
      ∧ (tx.Sign E privateKey).map (fun signed => signed.mTxHash) = some tx.mTxHash
      ∧ (tx.MultiSign E privateKey redeemScript).map (fun signed => signed.mTxHash)
          = some tx.mTxHash := by
  obtain ⟨programs, hm⟩ := MultiSign_total E tx privateKey redeemScript hkey
  rw [Sign_eq E tx privateKey hkey, hm]
  simp only [Option.map_some', GetHash_with_programs E tx _ hunset]
  exact ⟨trivial, trivial, trivial, trivial⟩

/-- C4, at the concrete transaction `demoTx` signed with the 32-byte private key
`demoKey 1`. -/
theorem GetHash_independent_of_programs_witness :
    demoTx.mTxHash = UINT256_ZERO
      ∧ (demoTx.Sign demoProvider (demoKey 1)).map (fun signed => signed.mPrograms.length)
          = some 1
      ∧ (demoTx.Sign demoProvider (demoKey 1)).map
            (fun signed => (signed.GetHash demoProvider).1) =
          some (Transaction.GetHash demoProvider { demoTx with mPrograms := [] }).1 :=
  ⟨rfl, by decide,
    (GetHash_independent_of_programs demoProvider demoTx (demoKey 1) [] rfl (by decide)).1⟩

/-- With a private key of fewer than 32 bytes `Sign` and `MultiSign` read outside the key:
at the 1-byte key `[1]` the embedding returns `none`. -/
theorem Sign_short_key_reads_outside :
    demoTx.SignData demoProvider [1] = none
      ∧ (demoTx.Sign demoProvider [1]).isNone = true
      ∧ (demoTx.MultiSign demoProvider [1] [1, 174]).isNone = true := by
  decide

/-- C8: on a transaction that already holds two or more programs `MultiSign` changes
nothing, whatever the private key: the program list (number, order, every code and
parameter) and every other member are as before. -/
theorem MultiSign_unchanged_on_several_programs (E : Provider I O X)
    (tx : Transaction I O X) (privateKey redeemScript : CMBlock)
    (hmany : 2 ≤ tx.mPrograms.length) :
    tx.MultiSign E privateKey redeemScript = some tx
      ∧ (tx.MultiSign E privateKey redeemScript).map (fun result => result.mPrograms)
          = some tx.mPrograms := by
  have h := MultiSign_several E tx privateKey redeemScript hmany
  exact ⟨h, by rw [h]; rfl⟩

/-- C8, at the concrete transaction `demoTx` given two programs. -/
theorem MultiSign_unchanged_on_several_programs_witness :
    (Transaction.MultiSign demoProvider
        { demoTx with mPrograms := [⟨[1], [2]⟩, ⟨[3], []⟩] } [1] [1, 174]).map
          (fun result => result.mPrograms)
      = some [⟨[1], [2]⟩, ⟨[3], []⟩] :=
  (MultiSign_unchanged_on_several_programs demoProvider
    { demoTx with mPrograms := [⟨[1], [2]⟩, ⟨[3], []⟩] } [1] [1, 174] (by decide)).2

theorem hexValue_hexDigit (n : Nat) (h : n < 16) : hexValue (hexDigit n) = n := by
  have key : ∀ m : Fin 16, hexValue (hexDigit m) = m := by decide
  exact key ⟨n, h⟩

theorem decodeHexChars_encodeHexChars (data : List Nat) (hbytes : ∀ b ∈ data, b < 256) :
    decodeHexChars (encodeHexChars data) = data := by
  induction data with
  | nil => rfl
  | cons b bs ih =>
    have hb : b < 256 := hbytes b (List.mem_cons_self b bs)
    have hhi : hexValue (hexDigit (b / 16 % 16)) = b / 16 % 16 :=
      hexValue_hexDigit _ (Nat.mod_lt _ (by decide))
    have hlo : hexValue (hexDigit (b % 16)) = b % 16 :=
      hexValue_hexDigit _ (Nat.mod_lt _ (by decide))
    have hrest := ih (fun x hx => hbytes x (List.mem_cons_of_mem b hx))
    simp only [encodeHexChars, decodeHexChars, hhi, hlo, hrest]
    congr 1
    omega

theorem decodeHex_encodeHex (data : CMBlock) (hbytes : ∀ b ∈ data, b < 256) :
    Utils.decodeHex (Utils.encodeHex data) = data := by
  simp only [Utils.decodeHex, Utils.encodeHex]
  exact decodeHexChars_encodeHexChars data hbytes

theorem sizeSub_of_le (n k : Nat) (hk : k ≤ n) : sizeSub n k = n - k := by
  simp [sizeSub, hk]

theorem collectSigners_keys (keys : List CMBlock) :
    ∀ (pre : CMBlock) (count marker fuel : Nat) (acc : List String),
      keys.length < fuel →
      collectSigners (pre ++ (scriptKeys keys ++ [count, marker])) fuel pre.length acc
        = some (acc ++ keys.map Utils.encodeHex) := by
  induction keys with
  | nil =>
    intro pre count marker fuel acc hfuel
    obtain ⟨f, rfl⟩ : ∃ f, fuel = f + 1 := ⟨fuel - 1, by simp at hfuel; omega⟩
    have hlen : (pre ++ (scriptKeys [] ++ [count, marker])).length = pre.length + 2 := by
      simp [scriptKeys]
    rw [collectSigners, sizeSub_of_le _ 2 (by omega), hlen]
    simp
  | cons key ks ih =>
    intro pre count marker fuel acc hfuel
    obtain ⟨f, rfl⟩ : ∃ f, fuel = f + 1 := ⟨fuel - 1, by simp at hfuel; omega⟩
    have hcode : pre ++ (scriptKeys (key :: ks) ++ [count, marker])
        = (pre ++ key.length :: key) ++ (scriptKeys ks ++ [count, marker]) := by
      simp [scriptKeys]
    have hlen : (pre ++ (scriptKeys (key :: ks) ++ [count, marker])).length
        = pre.length + 1 + key.length + (scriptKeys ks).length + 2 := by
      simp [scriptKeys]
      omega
    have hget : (pre ++ (scriptKeys (key :: ks) ++ [count, marker]))[pre.length]?
        = some key.length := by
      rw [List.getElem?_append_right (Nat.le_refl _)]
      simp [scriptKeys]
    have hblob : ((pre ++ (scriptKeys (key :: ks) ++ [count, marker])).drop
        (pre.length + 1)).take key.length = key := by
      have : pre ++ (scriptKeys (key :: ks) ++ [count, marker])
          = (pre ++ [key.length]) ++ (key ++ (scriptKeys ks ++ [count, marker])) := by
        simp [scriptKeys]
      rw [this]
      have hl : (pre ++ [key.length]).length = pre.length + 1 := by simp
      rw [← hl, List.drop_left, List.take_left]
    rw [collectSigners, sizeSub_of_le _ 2 (by omega), hget]
    simp only []
    rw [if_pos (by omega), if_pos (by omega), hblob]
    have hnext := ih (pre ++ key.length :: key) count marker f
      (acc ++ [Utils.encodeHex key]) (by simp at hfuel; omega)
    rw [← hcode] at hnext
    have hl : (pre ++ key.length :: key).length = pre.length + key.length + 1 := by
      simp
      omega
    rw [hl] at hnext
    rw [hnext]
    simp

theorem pushVerified_eq (E : Provider I O X) (signers : List String) (md : UInt256)
    (signature : CMBlock) (acc : List String) :
    pushVerified E signers md signature acc
      = acc ++ signers.filter (fun signer => Transaction.Verify E signer md signature) := by
  unfold pushVerified
  induction signers generalizing acc with
  | nil => simp
  | cons s ss ih =>
    by_cases h : Transaction.Verify E s md signature = true
    · simp [List.foldl_cons, h, ih, List.filter_cons]
    · simp [List.foldl_cons, h, ih, List.filter_cons]

theorem collectSigned_chunks (E : Provider I O X) (signers : List String) (md : UInt256)
    (chunks : List CMBlock) :
    ∀ (pre : CMBlock) (fuel : Nat) (acc : List String),
      (∀ c ∈ chunks, c.length = SIGNATURE_SCRIPT_LENGTH) →
      chunks.length < fuel →
      collectSigned E signers md (pre ++ chunks.flatten) fuel pre.length acc
        = some (chunks.foldl (fun a c => pushVerified E signers md c a) acc) := by
  induction chunks with
  | nil =>
    intro pre fuel acc _ hfuel
    obtain ⟨f, rfl⟩ : ∃ f, fuel = f + 1 := ⟨fuel - 1, by simp at hfuel; omega⟩
    simp [collectSigned]
  | cons c cs ih =>
    intro pre fuel acc hlen hfuel
    obtain ⟨f, rfl⟩ : ∃ f, fuel = f + 1 := ⟨fuel - 1, by simp at hfuel; omega⟩
    have hc : c.length = SIGNATURE_SCRIPT_LENGTH := hlen c (List.mem_cons_self c cs)
    have hparam : pre ++ (c :: cs).flatten = (pre ++ c) ++ cs.flatten := by simp
    have hsig : ((pre ++ (c :: cs).flatten).drop pre.length).take SIGNATURE_SCRIPT_LENGTH
        = c := by
      rw [List.drop_left, List.flatten_cons, ← hc, List.take_left]
    have htotal : (pre ++ (c :: cs).flatten).length
        = pre.length + SIGNATURE_SCRIPT_LENGTH + cs.flatten.length := by
      simp [hc]
      omega
    have hpos : 0 < SIGNATURE_SCRIPT_LENGTH := by decide
    rw [collectSigned, if_pos (by omega), if_pos (by omega)]
    simp only []
    rw [hsig]
    have hnext := ih (pre ++ c) f (pushVerified E signers md c acc)
      (fun x hx => hlen x (List.mem_cons_of_mem c hx)) (by simp at hfuel; omega)
    rw [← hparam] at hnext
    have hl : (pre ++ c).length = pre.length + SIGNATURE_SCRIPT_LENGTH := by simp [hc]
    rw [hl] at hnext
    rw [hnext]
    rfl

theorem scriptKeys_length_ge (keys : List CMBlock) : keys.length ≤ (scriptKeys keys).length := by
  induction keys with
  | nil => simp [scriptKeys]
  | cons key ks ih =>
    simp only [scriptKeys, List.map_cons, List.flatten_cons, List.length_append,
      List.length_cons] at ih ⊢
    omega

theorem redeemScriptOf_length (header : Nat) (keys : List CMBlock) (count marker : Nat) :
    (redeemScriptOf header keys count marker).length = (scriptKeys keys).length + 3 := by
  simp [redeemScriptOf]

theorem redeemScriptOf_last (header : Nat) (keys : List CMBlock) (count marker : Nat) :
    (redeemScriptOf header keys count marker)[
      sizeSub (redeemScriptOf header keys count marker).length 1]? = some marker := by
  rw [sizeSub_of_le _ 1 (by rw [redeemScriptOf_length]; omega), redeemScriptOf_length]
  have hshape : redeemScriptOf header keys count marker
      = (header :: (scriptKeys keys ++ [count])) ++ [marker] := by
    simp [redeemScriptOf]
  rw [hshape, List.getElem?_append_right (by simp)]
  simp

theorem collectSigners_redeemScript (header : Nat) (keys : List CMBlock)
    (count marker : Nat) :
    collectSigners (redeemScriptOf header keys count marker)
        ((redeemScriptOf header keys count marker).length + 1) 1 []
      = some (keys.map Utils.encodeHex) := by
  have h := collectSigners_keys keys [header] count marker
    ((redeemScriptOf header keys count marker).length + 1) []
    (by rw [redeemScriptOf_length]; have := scriptKeys_length_ge keys; omega)
  simpa [redeemScriptOf] using h

theorem GetSignedSigner_single (E : Provider I O X) (tx : Transaction I O X)
    (program : Program) (hprog : tx.mPrograms = [program]) :
    tx.GetSignedSigner E =
      match program.mCode[sizeSub program.mCode.length 1]? with
      | none => none
      | some last =>
        if last ≠ E.ELA_MULTISIG then some []
        else
          match collectSigners program.mCode (program.mCode.length + 1) 1 [] with
          | none => none
          | some signers =>
            collectSigned E signers ((tx.GetSHAData E).take 32) program.mParameter
              (program.mParameter.length + 1) 0 [] := by
  unfold Transaction.GetSignedSigner
  rw [hprog, if_neg (show ¬ ([program].length > 1) from by simp),
    if_neg (show ¬ ([program].length = 0) from by simp)]

theorem GetSignedSigner_redeemScript (E : Provider I O X) (tx : Transaction I O X)
    (header count : Nat) (keys chunks : List CMBlock)
    (hprog : tx.mPrograms =
      [⟨redeemScriptOf header keys count E.ELA_MULTISIG, chunks.flatten⟩])
    (hchunks : ∀ c ∈ chunks, c.length = SIGNATURE_SCRIPT_LENGTH) :
    tx.GetSignedSigner E =
      some (chunks.foldl
        (fun acc chunk => acc ++ (keys.map Utils.encodeHex).filter
          (fun signer => Transaction.Verify E signer (tx.GetSHAData E) chunk)) []) := by
  have hmd : (tx.GetSHAData E).take 32 = tx.GetSHAData E := by
    have h32 : (tx.GetSHAData E).length = 32 := E.sha_size _
    rw [← h32, List.take_length]
  have hfuel : chunks.length < chunks.flatten.length + 1 := by
    have : ∀ l : List CMBlock, (∀ c ∈ l, c.length = SIGNATURE_SCRIPT_LENGTH) →
        l.length ≤ l.flatten.length := by
      intro l
      induction l with
      | nil => simp
      | cons c cs ih =>
        intro h
        have hc := h c (List.mem_cons_self c cs)
        have := ih (fun x hx => h x (List.mem_cons_of_mem c hx))
        simp only [List.length_cons, List.flatten_cons, List.length_append, hc,
          SIGNATURE_SCRIPT_LENGTH]
        omega
    have := this chunks hchunks
    omega
  have hwalk := collectSigned_chunks E (keys.map Utils.encodeHex) (tx.GetSHAData E) chunks []
    (chunks.flatten.length + 1) [] hchunks hfuel
  simp only [List.nil_append, List.length_nil] at hwalk
  rw [GetSignedSigner_single E tx _ hprog]
  simp only []
  rw [redeemScriptOf_last header keys count E.ELA_MULTISIG]
  simp only [ne_eq, not_true_eq_false, if_false]
  rw [collectSigners_redeemScript header keys count E.ELA_MULTISIG]
  simp only [hmd]
  rw [hwalk]
  have hpush : (fun (a : List String) (c : CMBlock) =>
      pushVerified E (keys.map Utils.encodeHex) (tx.GetSHAData E) c a)
      = (fun acc chunk => acc ++ (keys.map Utils.encodeHex).filter
          (fun signer => Transaction.Verify E signer (tx.GetSHAData E) chunk)) := by
    funext a c
    exact pushVerified_eq E _ _ c a
  rw [hpush]

theorem encodeHex_injective (a b : CMBlock) (ha : ∀ x ∈ a, x < 256) (hb : ∀ x ∈ b, x < 256)
    (h : Utils.encodeHex a = Utils.encodeHex b) : a = b := by
  rw [← decodeHex_encodeHex a ha, h, decodeHex_encodeHex b hb]

theorem Verify_own_signature (E : Provider I O X) (tx : Transaction I O X)
    (publicKey privateKey : CMBlock) (hbytes : ∀ b ∈ publicKey, b < 256) :
    Transaction.Verify E (Utils.encodeHex publicKey) (tx.GetSHAData E)
        (tx.signatureOf E privateKey)
      = E.ECDSA65Verify_sha256 publicKey (tx.GetSHAData E)
          (E.ECDSA65Sign_sha256 privateKey (tx.GetSHAData E)) := by
  simp only [Transaction.Verify, Transaction.signatureOf,
    decodeHex_encodeHex publicKey hbytes]

/-- C10: start from a transaction with zero programs, take three private keys of 32
bytes whose derived public keys `P1`, `P2`, `P3` are pairwise distinct, the redeem script
`[threshold][33][P1][33][P2][33][P3][count][ELA_MULTISIG]`, and call `MultiSign` with the
first key and then with the third.  The result is a transaction with exactly one program,
with that script as code and the two signatures as parameter.  Assuming that the
provider's verification accepts, under the public key derived from a 32-byte private key,
a signature made over the same digest by a 32-byte private key exactly when that key
derives the same public key, `GetSignedSigner` returns exactly the hex texts of `P1` and
`P3`, in this order, and the hex text of `P2` is not in the result. -/
theorem GetSignedSigner_recovers_first_and_third (E : Provider I O X)
    (tx : Transaction I O X) (key1 key2 key3 : CMBlock) (threshold count : Nat)
    (hempty : tx.mPrograms = [])
    (hkey1 : key1.length = 32) (hkey2 : key2.length = 32) (hkey3 : key3.length = 32)
    (hbytes : ∀ k, ∀ b ∈ E.getPubKeyFromPrivKey k, b < 256)
    (h12 : E.getPubKeyFromPrivKey key1 ≠ E.getPubKeyFromPrivKey key2)
    (h13 : E.getPubKeyFromPrivKey key1 ≠ E.getPubKeyFromPrivKey key3)
    (h23 : E.getPubKeyFromPrivKey key2 ≠ E.getPubKeyFromPrivKey key3)
    (hverify : ∀ k signer d, k.length = 32 → signer.length = 32 →
      (E.ECDSA65Verify_sha256 (E.getPubKeyFromPrivKey k) d (E.ECDSA65Sign_sha256 signer d)
          = true
        ↔ E.getPubKeyFromPrivKey signer = E.getPubKeyFromPrivKey k)) :
    let P1 := E.getPubKeyFromPrivKey key1
    let P2 := E.getPubKeyFromPrivKey key2
    let P3 := E.getPubKeyFromPrivKey key3
    let script := redeemScriptOf threshold [P1, P2, P3] count E.ELA_MULTISIG
    let signature1 := E.ECDSA65Sign_sha256 key1 (tx.GetSHAData E)
    let signature3 := E.ECDSA65Sign_sha256 key3 (tx.GetSHAData E)
    let signed := (tx.MultiSign E key1 script).bind (fun once => once.MultiSign E key3 script)
    signed = some { tx with mPrograms := [⟨script, signature1 ++ signature3⟩] }
      ∧ script = threshold :: 33 :: P1 ++ 33 :: P2 ++ 33 :: P3 ++ [count, E.ELA_MULTISIG]
      ∧ signed.bind (fun result => result.GetSignedSigner E)
          = some [Utils.encodeHex P1, Utils.encodeHex P3]
      ∧ Utils.encodeHex P2 ∉ [Utils.encodeHex P1, Utils.encodeHex P3] := by
  intro P1 P2 P3 script signature1 signature3 signed
  have hsigned : signed =
      some { tx with mPrograms := [⟨script, signature1 ++ signature3⟩] } :=
    MultiSign_twice E tx key1 key3 script (Nat.le_of_eq hkey1.symm)
      (Nat.le_of_eq hkey3.symm) hempty
  have hb1 : ∀ b ∈ P1, b < 256 := hbytes key1
  have hb2 : ∀ b ∈ P2, b < 256 := hbytes key2
  have hb3 : ∀ b ∈ P3, b < 256 := hbytes key3
  have hval : ∀ (k signer : CMBlock) (b : Bool), k.length = 32 → signer.length = 32 →
      (E.getPubKeyFromPrivKey signer = E.getPubKeyFromPrivKey k ↔ b = true) →
      Transaction.Verify E (Utils.encodeHex (E.getPubKeyFromPrivKey k)) (tx.GetSHAData E)
        (tx.signatureOf E signer) = b := by
    intro k signer b hk hs hb
    rw [Verify_own_signature E tx _ signer (hbytes k)]
    cases b with
    | true => exact (hverify k signer _ hk hs).mpr (hb.mpr rfl)
    | false =>
      rw [Bool.eq_false_iff]
      intro hv
      exact Bool.noConfusion (hb.mp ((hverify k signer _ hk hs).mp hv))
  have v11 := hval key1 key1 true hkey1 hkey1 (by simp)
  have v21 := hval key2 key1 false hkey2 hkey1 (by simpa using h12)
  have v31 := hval key3 key1 false hkey3 hkey1 (by simpa using h13)
  have v13 := hval key1 key3 false hkey1 hkey3 (by simpa using fun h => h13 h.symm)
  have v23 := hval key2 key3 false hkey2 hkey3 (by simpa using fun h => h23 h.symm)
  have v33 := hval key3 key3 true hkey3 hkey3 (by simp)
  refine ⟨hsigned, ?_, ?_, ?_⟩
  · simp [script, redeemScriptOf, scriptKeys, P1, P2, P3, E.pubKey_size]
  · rw [hsigned, Option.some_bind]
    have hrec := GetSignedSigner_redeemScript E
      { tx with mPrograms := [⟨script, signature1 ++ signature3⟩] }
      threshold count [P1, P2, P3]
      [tx.signatureOf E key1, tx.signatureOf E key3]
      (by simp [script, signature1, signature3, Transaction.signatureOf])
      (by
        intro c hc
        simp only [List.mem_cons, List.mem_singleton, List.not_mem_nil, or_false] at hc
        rcases hc with rfl | rfl
        · exact signatureOf_length E tx key1
        · exact signatureOf_length E tx key3)
    have hsha : Transaction.GetSHAData E
        { tx with mPrograms := [⟨script, signature1 ++ signature3⟩] } = tx.GetSHAData E := rfl
    rw [hrec, hsha]
    simp only [List.foldl_cons, List.foldl_nil, List.map_cons, List.map_nil,
      List.filter_cons, List.filter_nil, List.nil_append]
    simp only [P1, P2, P3] at *
    rw [v11, v21, v31, v13, v23, v33]
    rfl
  · intro hmem
    simp only [List.mem_cons, List.mem_singleton, List.not_mem_nil, or_false] at hmem
    rcases hmem with h | h
    · exact h12 (encodeHex_injective _ _ hb2 hb1 h).symm
    · exact h23 (encodeHex_injective _ _ hb2 hb3 h)

/-- C10, in the concrete provider: `demoTx` signed by `MultiSign` with the 32-byte private
keys `demoKey 1` and `demoKey 3` under the redeem script over the public keys of
`demoKey 1`, `demoKey 2` and `demoKey 3`; `GetSignedSigner` returns the hex texts of the
first and the third public key. -/
theorem GetSignedSigner_recovers_first_and_third_witness :
    ((demoTx.MultiSign demoProvider (demoKey 1)
          (redeemScriptOf 2
            [demoPubKey (demoKey 1), demoPubKey (demoKey 2), demoPubKey (demoKey 3)]
            3 174)).bind
        (fun once => once.MultiSign demoProvider (demoKey 3)
          (redeemScriptOf 2
            [demoPubKey (demoKey 1), demoPubKey (demoKey 2), demoPubKey (demoKey 3)]
            3 174))).bind
        (fun result => result.GetSignedSigner demoProvider)
      = some [Utils.encodeHex (demoPubKey (demoKey 1)),
          Utils.encodeHex (demoPubKey (demoKey 3))] :=
  (GetSignedSigner_recovers_first_and_third demoProvider demoTx (demoKey 1) (demoKey 2)
    (demoKey 3) 2 3 rfl (by decide) (by decide) (by decide)
    (by
      intro k b hb
      simp only [demoProvider, demoPubKey, List.mem_cons, List.mem_replicate] at hb
      rcases hb with rfl | ⟨_, rfl⟩
      · exact Nat.mod_lt _ (by decide)
      · decide)
    (by decide) (by decide) (by decide)
    (by intro k signer d _ _; simp [demoProvider])).2.2.1

theorem splitChunks_length (n : Nat) (buffer : CMBlock) :
    (splitChunks n buffer).length = n := by
  induction n generalizing buffer with
  | zero => rfl
  | succ n ih => simp [splitChunks, ih]

theorem splitChunks_flatten (n : Nat) :
    ∀ buffer : CMBlock, buffer.length = SIGNATURE_SCRIPT_LENGTH * n →
      (splitChunks n buffer).flatten = buffer
        ∧ ∀ c ∈ splitChunks n buffer, c.length = SIGNATURE_SCRIPT_LENGTH := by
  induction n with
  | zero =>
    intro buffer h
    have : buffer = [] := List.length_eq_zero.mp (by simpa using h)
    subst this
    simp [splitChunks]
  | succ n ih =>
    intro buffer h
    have hdrop : (buffer.drop SIGNATURE_SCRIPT_LENGTH).length = SIGNATURE_SCRIPT_LENGTH * n := by
      rw [List.length_drop, h]
      simp only [SIGNATURE_SCRIPT_LENGTH]
      omega
    have htake : (buffer.take SIGNATURE_SCRIPT_LENGTH).length = SIGNATURE_SCRIPT_LENGTH := by
      rw [List.length_take, h]
      simp only [SIGNATURE_SCRIPT_LENGTH]
      omega
    obtain ⟨hflat, hall⟩ := ih (buffer.drop SIGNATURE_SCRIPT_LENGTH) hdrop
    refine ⟨?_, ?_⟩
    · simp only [splitChunks, List.flatten_cons, hflat, List.take_append_drop]
    · intro c hc
      simp only [splitChunks, List.mem_cons] at hc
      rcases hc with rfl | hc
      · exact htake
      · exact hall c hc

theorem signatureChunks_flatten (parameter : CMBlock)
    (hlen : parameter.length % SIGNATURE_SCRIPT_LENGTH = 0) :
    (signatureChunks parameter).flatten = parameter
      ∧ ∀ c ∈ signatureChunks parameter, c.length = SIGNATURE_SCRIPT_LENGTH := by
  apply splitChunks_flatten
  simp only [SIGNATURE_SCRIPT_LENGTH] at hlen ⊢
  omega

theorem foldl_append_filter {α β : Type} (f : β → List α) (chunks : List β) (acc : List α) :
    chunks.foldl (fun a c => a ++ f c) acc = acc ++ (chunks.map f).flatten := by
  induction chunks generalizing acc with
  | nil => simp
  | cons c cs ih => simp [ih, List.append_assoc]

theorem flatten_filter_length_le {α β : Type} (p : β → α → Bool) (candidates : List α)
    (chunks : List β) :
    ((chunks.map (fun c => candidates.filter (p c))).flatten).length
      ≤ chunks.length * candidates.length := by
  induction chunks with
  | nil => simp
  | cons c cs ih =>
    have h := List.length_filter_le (p c) candidates
    simp only [List.map_cons, List.flatten_cons, List.length_append, List.length_cons]
    rw [Nat.succ_mul]
    omega

/-- C11: `GetSignedSigner` returns the empty list when the transaction has zero programs,
when it has more than one program, and when it has exactly one program whose code has a
last byte different from `ELA_MULTISIG`.  (The function writes no member of the
transaction, so the embedding has no new transaction to return.) -/
theorem GetSignedSigner_empty_when_not_applicable (E : Provider I O X)
    (tx : Transaction I O X) :
    (tx.mPrograms = [] → tx.GetSignedSigner E = some [])
      ∧ (1 < tx.mPrograms.length → tx.GetSignedSigner E = some [])
      ∧ (∀ (program : Program) (last : Nat), tx.mPrograms = [program] →
          program.mCode.getLast? = some last → last ≠ E.ELA_MULTISIG →
          tx.GetSignedSigner E = some []) := by
  refine ⟨?_, ?_, ?_⟩
  · intro h
    unfold Transaction.GetSignedSigner
    rw [h]
    rfl
  · intro h
    unfold Transaction.GetSignedSigner
    rw [if_pos h]
  · intro program last hprog hlast hne
    have hpos : 1 ≤ program.mCode.length := by
      cases hc : program.mCode with
      | nil => rw [hc] at hlast; simp at hlast
      | cons x xs => simp
    rw [GetSignedSigner_single E tx program hprog, sizeSub_of_le _ 1 hpos,
      ← List.getLast?_eq_getElem?, hlast]
    simp only []
    rw [if_pos hne]

/-- C12 (evaluation at the failing input): in the concrete provider, one program whose
code is the script over the public key of the private key `demoKey 1` and whose parameter
is the signature that `SignData` returns for that key (65 bytes) gives the signer; with
one more byte after the signature (66 bytes, so one whole chunk and one trailing byte) the
chunk loop runs a second time at offset 65 and its 65-byte copy reads outside the
parameter. -/
theorem GetSignedSigner_trailing_bytes_read_outside :
    demoTx.SignData demoProvider (demoKey 1) = some (demoSignature 1)
      ∧ (signatureChunks (demoSignature 1 ++ [0])).length = 1
      ∧ Transaction.GetSignedSigner demoProvider
          { demoTx with mPrograms :=
              [⟨redeemScriptOf 1 [demoPubKey (demoKey 1)] 1 174, demoSignature 1⟩] }
          = some [Utils.encodeHex (demoPubKey (demoKey 1))]
      ∧ Transaction.GetSignedSigner demoProvider
          { demoTx with mPrograms :=
              [⟨redeemScriptOf 1 [demoPubKey (demoKey 1)] 1 174, demoSignature 1 ++ [0]⟩] }
          = none := by
  decide

/-- C18: on a redeem script made of one header byte, then for every key its length
byte and its bytes, then one count byte and the marker byte, the script walk of
`GetSignedSigner` (from offset 1, with the iteration bound `GetSignedSigner` gives it, and
with any bound above the number of keys) collects exactly the hex texts of the keys, in
script order. -/
theorem collectSigners_collects_every_key (header count marker : Nat)
    (keys : List CMBlock) :
    collectSigners (redeemScriptOf header keys count marker)
        ((redeemScriptOf header keys count marker).length + 1) 1 []
        = some (keys.map Utils.encodeHex)
      ∧ ∀ fuel, keys.length < fuel →
          collectSigners (redeemScriptOf header keys count marker) fuel 1 []
            = some (keys.map Utils.encodeHex) := by
  refine ⟨collectSigners_redeemScript header keys count marker, ?_⟩
  intro fuel hfuel
  have h := collectSigners_keys keys [header] count marker fuel [] hfuel
  simpa [redeemScriptOf] using h

/-- C19 (amended): for a transaction with one program whose code is a redeem script ending in
`ELA_MULTISIG` and whose parameter is made of whole 65-byte chunks, the result of
`GetSignedSigner` is the concatenation, over the chunks in buffer order, of the candidate
keys (in script order) that verify against the chunk and the single-round digest of the
unsigned payload; its length is at most the number of chunks times the number of
candidates. -/
theorem GetSignedSigner_concatenates_verified_candidates (E : Provider I O X)
    (tx : Transaction I O X) (header count : Nat) (keys : List CMBlock)
    (parameter : CMBlock)
    (hprog : tx.mPrograms = [⟨redeemScriptOf header keys count E.ELA_MULTISIG, parameter⟩])
    (hlen : parameter.length % SIGNATURE_SCRIPT_LENGTH = 0) :
    let digest := E.BRSHA256 (tx.SerializeUnsigned E ByteStream.empty).getBuffer
    let candidates := keys.map Utils.encodeHex
    let chunks := signatureChunks parameter
    let verified := fun (chunk : CMBlock) =>
      candidates.filter (fun signer => Transaction.Verify E signer digest chunk)
    tx.GetSignedSigner E = some (chunks.map verified).flatten
      ∧ chunks.flatten = parameter
      ∧ chunks.length = parameter.length / SIGNATURE_SCRIPT_LENGTH
      ∧ (chunks.map verified).flatten.length ≤ chunks.length * candidates.length := by
  intro digest candidates chunks verified
  obtain ⟨hflat, hall⟩ := signatureChunks_flatten parameter hlen
  have hrec := GetSignedSigner_redeemScript E tx header count keys chunks
    (by rw [hprog, hflat]) hall
  refine ⟨?_, hflat, splitChunks_length _ _, ?_⟩
  · rw [hrec, foldl_append_filter]
    rfl
  · exact flatten_filter_length_le
      (fun chunk signer => Transaction.Verify E signer digest chunk) candidates chunks

set_option maxRecDepth 4000 in
/-- C19 (amended), in the concrete provider: the key `demoKey 1` signs in both chunks and
is listed twice; and with the same key twice in the script, one chunk contributes both
candidates. -/
theorem GetSignedSigner_concatenates_verified_candidates_witness :
    Transaction.GetSignedSigner demoProvider
        { demoTx with mPrograms :=
            [⟨redeemScriptOf 1 [demoPubKey (demoKey 1), demoPubKey (demoKey 2)] 2 174,
              demoSignature 1 ++ demoSignature 1⟩] }
        = some [Utils.encodeHex (demoPubKey (demoKey 1)),
            Utils.encodeHex (demoPubKey (demoKey 1))]
      ∧ Transaction.GetSignedSigner demoProvider
          { demoTx with mPrograms :=
              [⟨redeemScriptOf 1 [demoPubKey (demoKey 1), demoPubKey (demoKey 1)] 2 174,
                demoSignature 1⟩] }
          = some [Utils.encodeHex (demoPubKey (demoKey 1)),
              Utils.encodeHex (demoPubKey (demoKey 1))] := by
  refine ⟨?_, ?_⟩
  · rw [(GetSignedSigner_concatenates_verified_candidates demoProvider
      { demoTx with mPrograms :=
          [⟨redeemScriptOf 1 [demoPubKey (demoKey 1), demoPubKey (demoKey 2)] 2 174,
            demoSignature 1 ++ demoSignature 1⟩] }
      1 2 [demoPubKey (demoKey 1), demoPubKey (demoKey 2)]
      (demoSignature 1 ++ demoSignature 1)
      rfl (by simp [demoSignature, demoProvider.sign_size, SIGNATURE_SCRIPT_LENGTH])).1]
    decide
  · decide

/-- C19 (as stated, refuted): in the concrete provider, two programs whose code ends in
`ELA_MULTISIG`, so that `GetSignedSigner` takes them for multisig programs, for which the
result is no list at all.  In the first the script is `[1, 5, 7, 174]`: its length byte 5
announces more key bytes than the script holds, and the script walk reads outside the
code.  In the second the script is correctly formed and the parameter has a single byte:
the 65-byte copy of the chunk loop reads outside the parameter. -/
theorem GetSignedSigner_no_list_on_malformed_program :
    [1, 5, 7, 174].getLast? = some demoProvider.ELA_MULTISIG
      ∧ Transaction.GetSignedSigner demoProvider
          { demoTx with mPrograms := [⟨[1, 5, 7, 174], demoSignature 1⟩] } = none
      ∧ Transaction.GetSignedSigner demoProvider
          { demoTx with mPrograms :=
              [⟨redeemScriptOf 1 [demoPubKey (demoKey 1)] 1 174, [0]⟩] } = none := by
  decide

/-- C20: for a transaction with exactly one program whose code is a redeem script of the
shape header byte, key entries (length byte, then that many key bytes), count byte, last
byte, and whose parameter length is a multiple of 65, `GetSignedSigner` returns a list:
no read of `code` or of `parameter` falls outside the buffer, and the iteration bounds of
the two loops are not exhausted. -/
theorem GetSignedSigner_reads_inside_buffers (E : Provider I O X)
    (tx : Transaction I O X) (header count marker : Nat) (keys : List CMBlock)
    (parameter : CMBlock)
    (hprog : tx.mPrograms = [⟨redeemScriptOf header keys count marker, parameter⟩])
    (hlen : parameter.length % SIGNATURE_SCRIPT_LENGTH = 0) :
    tx.GetSignedSigner E ≠ none
      ∧ collectSigners (redeemScriptOf header keys count marker)
          ((redeemScriptOf header keys count marker).length + 1) 1 [] ≠ none
      ∧ ∀ (signers : List String) (md : UInt256),
          collectSigned E signers md parameter (parameter.length + 1) 0 [] ≠ none := by
  obtain ⟨hflat, hall⟩ := signatureChunks_flatten parameter hlen
  have hfuel : (signatureChunks parameter).length < parameter.length + 1 := by
    rw [signatureChunks, splitChunks_length]
    exact Nat.lt_succ_of_le (Nat.div_le_self _ _)
  have hchunks : ∀ (signers : List String) (md : UInt256),
      collectSigned E signers md parameter (parameter.length + 1) 0 [] ≠ none := by
    intro signers md
    have h := collectSigned_chunks E signers md (signatureChunks parameter) []
      (parameter.length + 1) [] hall hfuel
    simp only [List.nil_append, List.length_nil, hflat] at h
    rw [h]
    exact Option.some_ne_none _
  refine ⟨?_, ?_, hchunks⟩
  · rw [GetSignedSigner_single E tx _ hprog]
    simp only []
    rw [redeemScriptOf_last header keys count marker]
    simp only []
    by_cases hm : marker = E.ELA_MULTISIG
    · rw [if_neg (not_not_intro hm), collectSigners_redeemScript header keys count marker]
      exact hchunks _ _
    · rw [if_pos hm]
      exact Option.some_ne_none _
  · rw [collectSigners_redeemScript header keys count marker]
    exact Option.some_ne_none _

/-- C20, in the concrete provider: a script over two keys with a parameter of 130
bytes. -/
theorem GetSignedSigner_reads_inside_buffers_witness :
    Transaction.GetSignedSigner demoProvider
        { demoTx with mPrograms :=
            [⟨redeemScriptOf 1 [demoPubKey [1], demoPubKey [2]] 2 174,
              List.replicate 130 0⟩] } ≠ none :=
  (GetSignedSigner_reads_inside_buffers demoProvider
    { demoTx with mPrograms :=
        [⟨redeemScriptOf 1 [demoPubKey [1], demoPubKey [2]] 2 174, List.replicate 130 0⟩] }
    1 2 174 [demoPubKey [1], demoPubKey [2]] (List.replicate 130 0) rfl
    (by simp [SIGNATURE_SCRIPT_LENGTH])).1

/-! ## Distinct private keys -/

/-- C13 (evaluation at the failing input): with two inputs whose private keys are
`[1, 2, 3]` and then `[1, 2]`, `GetPrivateKeys` returns `[[1, 2, 3]]` only: `memcmp`
over the 2 bytes of the second key finds it equal to the first key, so the second key,
although not byte-equal to any collected key, is dropped as a duplicate.  In the
other order the comparison over 3 bytes reads outside the 2-byte key. -/
theorem GetPrivateKeys_drops_shorter_key :
    Transaction.GetPrivateKeys id { demoTx with mInputs := [[1, 2, 3], [1, 2]] }
        = some [[1, 2, 3]]
      ∧ Transaction.GetPrivateKeys id { demoTx with mInputs := [[1, 2], [1, 2, 3]] } = none
      ∧ Transaction.GetPrivateKeys id { demoTx with mInputs := [[1, 2], [], [3, 4], [1, 2]] }
          = some [[1, 2], [3, 4]] := by
  decide

/-! ## Structured-record import and export -/

theorem lookupMember_set_same (key : String) (value : Json) (members : List (String × Json)) :
    lookupMember key (removeMember key members ++ [(key, value)]) = some value := by
  induction members with
  | nil => simp [lookupMember, removeMember]
  | cons m ms ih =>
    obtain ⟨k, v⟩ := m
    by_cases h : k = key
    · simp [removeMember, h, ih]
    · simp [removeMember, h, lookupMember, ih]

theorem lookupMember_set_other (key other : String) (value : Json)
    (members : List (String × Json)) (hne : other ≠ key) :
    lookupMember other (removeMember key members ++ [(key, value)])
      = lookupMember other members := by
  induction members with
  | nil => simp [lookupMember, removeMember, Ne.symm hne]
  | cons m ms ih =>
    obtain ⟨k, v⟩ := m
    by_cases h : k = key
    · have hk : k ≠ other := by rw [h]; exact Ne.symm hne
      simp [removeMember, h, lookupMember, ih, Ne.symm hne]
    · by_cases h2 : k = other
      · subst h2
        simp [removeMember, h, lookupMember]
      · simp [removeMember, h, lookupMember, h2, ih]

theorem find_set_same (jsonData : Json) (key : String) (value : Json) :
    (jsonData.set key value).find key = some value := by
  cases jsonData <;> simp [Json.set, Json.find, lookupMember, lookupMember_set_same]

theorem find_set_other (jsonData : Json) (key other : String) (value : Json)
    (hne : other ≠ key) :
    (jsonData.set key value).find other = jsonData.find other := by
  cases jsonData <;>
    simp [Json.set, Json.find, lookupMember, lookupMember_set_other _ _ _ _ hne, Ne.symm hne]

theorem find_ite_set_other (c : Prop) [Decidable c] (jsonData : Json) (key other : String)
    (value : Json) (hne : other ≠ key) :
    (if c then jsonData.set key value else jsonData).find other = jsonData.find other := by
  split
  · exact find_set_other jsonData key other value hne
  · rfl

theorem foldl_push_map {α β : Type} (f : α → β) (l : List α) (init : List β) :
    l.foldl (fun acc x => acc ++ [f x]) init = init ++ l.map f := by
  induction l generalizing init with
  | nil => simp
  | cons x xs ih => simp [ih]

theorem foldl_push_inputs (f : Json → I) (items : List Json) (tx : Transaction I O X) :
    items.foldl (fun tx item => { tx with mInputs := tx.mInputs ++ [f item] }) tx
      = { tx with mInputs := tx.mInputs ++ items.map f } := by
  induction items generalizing tx with
  | nil => simp
  | cons x xs ih => simp [ih]

theorem foldl_push_outputs (f : Json → O) (items : List Json) (tx : Transaction I O X) :
    items.foldl (fun tx item => { tx with mOutputs := tx.mOutputs ++ [f item] }) tx
      = { tx with mOutputs := tx.mOutputs ++ items.map f } := by
  induction items generalizing tx with
  | nil => simp
  | cons x xs ih => simp [ih]

theorem foldl_push_programs (f : Json → Program) (items : List Json)
    (tx : Transaction I O X) :
    items.foldl (fun tx item => { tx with mPrograms := tx.mPrograms ++ [f item] }) tx
      = { tx with mPrograms := tx.mPrograms ++ items.map f } := by
  induction items generalizing tx with
  | nil => simp
  | cons x xs ih => simp [ih]

theorem importCrossChainAssetList_eq (R : Records I O X) (items : List Json) :
    ∀ (index : Nat) (tx : Transaction I O X),
      importCrossChainAssetList R items index tx
        = { tx with mCrossChainAssets :=
              (tx.mCrossChainAssets ++ (items.enumFrom index).map
                (fun entry => R.crossChainAssetFromJson entry.1 entry.2)) } := by
  induction items with
  | nil => intro index tx; simp [importCrossChainAssetList]
  | cons x xs ih =>
    intro index tx
    simp [importCrossChainAssetList, ih, List.enumFrom_cons]

theorem importInputs_some (R : Records I O X) (tx result : Transaction I O X)
    (jsonData : Json) (h : importInputs R tx jsonData = some result) :
    ∃ items, jsonData.find "UTXOInputs" = some (Json.array items)
      ∧ result = { tx with mInputs := tx.mInputs ++ items.map R.inputFromJson } := by
  unfold importInputs Json.at at h
  cases hf : jsonData.find "UTXOInputs" with
  | none => rw [hf] at h; simp at h
  | some j =>
    rw [hf] at h
    cases j with
    | array items =>
      simp only [Json.asVector, Option.some.injEq] at h
      exact ⟨items, rfl, by rw [← h, foldl_push_inputs]⟩
    | _ => simp [Json.asVector] at h

theorem importOutputs_some (R : Records I O X) (tx result : Transaction I O X)
    (jsonData : Json) (assertId : String)
    (h : importOutputs R tx jsonData assertId = some result) :
    ∃ items, jsonData.find "Outputs" = some (Json.array items)
      ∧ result = { tx with mOutputs := tx.mOutputs ++ items.map (R.outputFromJson assertId) } := by
  unfold importOutputs Json.at at h
  cases hf : jsonData.find "Outputs" with
  | none => rw [hf] at h; simp at h
  | some j =>
    rw [hf] at h
    cases j with
    | array items =>
      simp only [Json.asVector, Option.some.injEq] at h
      exact ⟨items, rfl, by rw [← h, foldl_push_outputs]⟩
    | _ => simp [Json.asVector] at h

theorem importPrograms_some (R : Records I O X) (tx result : Transaction I O X)
    (jsonData : Json) (h : importPrograms R tx jsonData = some result) :
    ∃ programs, result = { tx with mPrograms := programs } := by
  unfold importPrograms at h
  cases hf : jsonData.find "Programs" with
  | none =>
    rw [hf] at h
    simp only [Option.some.injEq] at h
    exact ⟨tx.mPrograms, by rw [← h]⟩
  | some j =>
    rw [hf] at h
    cases j with
    | array items =>
      simp only [Json.asVector, Option.some.injEq] at h
      exact ⟨_, by rw [← h, foldl_push_programs]⟩
    | _ => simp [Json.asVector] at h

theorem importAttributeList_some (items : List Json) :
    ∀ (tx result : Transaction I O X), importAttributeList items tx = some result →
      ∃ attributes, result = { tx with mAttributes := attributes } := by
  induction items with
  | nil =>
    intro tx result h
    simp only [importAttributeList, Option.some.injEq] at h
    exact ⟨tx.mAttributes, by rw [← h]⟩
  | cons x xs ih =>
    intro tx result h
    unfold importAttributeList at h
    cases ha : Attribute.FromJson x with
    | none => rw [ha] at h; simp at h
    | some a =>
      rw [ha] at h
      obtain ⟨attributes, hr⟩ := ih _ _ h
      exact ⟨attributes, by rw [hr]⟩

theorem hasVersion9_iff (R : Records I O X) (outputs : List O) :
    hasVersion9 R outputs = true ↔ ∃ output ∈ outputs, R.outputVersion output = 9 := by
  induction outputs with
  | nil => simp [hasVersion9]
  | cons o os ih =>
    by_cases h : R.outputVersion o = 9
    · simp [hasVersion9, h]
    · simp [hasVersion9, h, ih]

theorem adoptOutputVersion_eq (R : Records I O X) (tx : Transaction I O X) :
    adoptOutputVersion R tx
      = { tx with mTxVersion := if hasVersion9 R tx.mOutputs then 9 else tx.mTxVersion } := by
  unfold adoptOutputVersion
  split <;> rfl

theorem importAttributes_some (R : Records I O X) (tx result : Transaction I O X)
    (jsonData : Json) (h : importAttributes R tx jsonData = some result) :
    ∃ attributes, result = { tx with mAttributes := attributes } := by
  unfold importAttributes at h
  cases hf : jsonData.find "Attributes" with
  | some j =>
    rw [hf] at h
    cases j with
    | array items =>
      simp only [Json.asVector] at h
      exact importAttributeList_some items tx result h
    | _ => simp [Json.asVector] at h
  | none =>
    rw [hf] at h
    simp only [] at h
    split at h
    · exact absurd h (by simp)
    · split at h
      · simp only [Option.some.injEq] at h
        exact ⟨_, h.symm⟩
      · simp only [Option.some.injEq] at h
        exact ⟨_, h.symm⟩

theorem importAttributes_absent (R : Records I O X) (tx : Transaction I O X)
    (jsonData : Json) (memo : String)
    (hattributes : jsonData.find "Attributes" = none)
    (hpostmark : jsonData.find "Postmark" = none)
    (hmemo : jsonData.find "Memo" = some (Json.string memo)
      ∨ (jsonData.find "Memo" = none ∧ memo = "")) :
    importAttributes R tx jsonData
      = some { tx with mAttributes := tx.mAttributes
          ++ [Attribute.ofText (if memo = "" then R.Nonce else R.Memo) memo] } := by
  unfold importAttributes
  rw [hattributes]
  rcases hmemo with hm | ⟨hm, rfl⟩
  · simp only [hm, Json.asString, hpostmark]
  · simp only [hm, hpostmark]

theorem importCrossChainAssets_present (E : Provider I O X) (R : Records I O X)
    (tx : Transaction I O X) (jsonData : Json) (items : List Json)
    (hfind : jsonData.find "CrossChainAsset" = some (Json.array items)) :
    importCrossChainAssets E R tx jsonData
      = some { tx with
          mType := E.TransferCrossChainAsset
          mCrossChainAssets :=
            (tx.mCrossChainAssets ++ (items.enumFrom 0).map
              (fun entry => R.crossChainAssetFromJson entry.1 entry.2)) } := by
  unfold importCrossChainAssets
  rw [hfind]
  simp only [Json.asVector, importCrossChainAssetList_eq]

theorem importCrossChainAssets_absent (E : Provider I O X) (R : Records I O X)
    (tx : Transaction I O X) (jsonData : Json)
    (hfind : jsonData.find "CrossChainAsset" = none) :
    importCrossChainAssets E R tx jsonData = some tx := by
  unfold importCrossChainAssets
  rw [hfind]

theorem importCrossChainAssets_some (E : Provider I O X) (R : Records I O X)
    (tx result : Transaction I O X) (jsonData : Json)
    (h : importCrossChainAssets E R tx jsonData = some result) :
    ∃ type entries, result = { tx with mType := type, mCrossChainAssets := entries } := by
  cases hf : jsonData.find "CrossChainAsset" with
  | none =>
    rw [importCrossChainAssets_absent E R tx jsonData hf, Option.some.injEq] at h
    exact ⟨tx.mType, tx.mCrossChainAssets, by rw [← h]⟩
  | some j =>
    cases j with
    | array items =>
      rw [importCrossChainAssets_present E R tx jsonData items hf, Option.some.injEq] at h
      exact ⟨_, _, h.symm⟩
    | _ =>
      unfold importCrossChainAssets at h
      rw [hf] at h
      simp [Json.asVector] at h

theorem FromJson_some (E : Provider I O X) (R : Records I O X)
    (tx result : Transaction I O X) (jsonData : Json) (assertId : String)
    (h : tx.FromJson E R jsonData assertId = some result) :
    ∃ t1 t2 t3 t4, importInputs R tx jsonData = some t1
      ∧ importOutputs R t1 jsonData assertId = some t2
      ∧ importPrograms R (adoptOutputVersion R t2) jsonData = some t3
      ∧ importAttributes R t3 jsonData = some t4
      ∧ importCrossChainAssets E R t4 jsonData = some result := by
  unfold Transaction.FromJson at h
  cases h1 : importInputs R tx jsonData with
  | none => rw [h1] at h; simp at h
  | some t1 =>
    rw [h1] at h
    simp only [] at h
    cases h2 : importOutputs R t1 jsonData assertId with
    | none => rw [h2] at h; simp at h
    | some t2 =>
      rw [h2] at h
      simp only [] at h
      cases h3 : importPrograms R (adoptOutputVersion R t2) jsonData with
      | none => rw [h3] at h; simp at h
      | some t3 =>
        rw [h3] at h
        simp only [] at h
        cases h4 : importAttributes R t3 jsonData with
        | none => rw [h4] at h; simp at h
        | some t4 =>
          rw [h4] at h
          exact ⟨t1, t2, t3, t4, rfl, h2, h3, h4, h⟩

/-- The shape of a successful import: which members of the result come from which step. -/
theorem FromJson_shape (E : Provider I O X) (R : Records I O X)
    (tx result : Transaction I O X) (jsonData : Json) (assertId : String)
    (h : tx.FromJson E R jsonData assertId = some result) :
    ∃ (t3 t4 : Transaction I O X) (inputs outputs : List Json),
      jsonData.find "UTXOInputs" = some (Json.array inputs)
        ∧ jsonData.find "Outputs" = some (Json.array outputs)
        ∧ result.mInputs = tx.mInputs ++ inputs.map R.inputFromJson
        ∧ result.mOutputs = tx.mOutputs ++ outputs.map (R.outputFromJson assertId)
        ∧ result.mTxVersion = (if hasVersion9 R result.mOutputs then 9 else tx.mTxVersion)
        ∧ t3.mAttributes = tx.mAttributes
        ∧ t3.mType = tx.mType
        ∧ t3.mCrossChainAssets = tx.mCrossChainAssets
        ∧ importAttributes R t3 jsonData = some t4
        ∧ t4.mType = tx.mType
        ∧ t4.mCrossChainAssets = tx.mCrossChainAssets
        ∧ result.mAttributes = t4.mAttributes
        ∧ importCrossChainAssets E R t4 jsonData = some result := by
  obtain ⟨t1, t2, t3, t4, h1, h2, h3, h4, h5⟩ := FromJson_some E R tx result jsonData assertId h
  obtain ⟨inputs, hfi, e1⟩ := importInputs_some R tx t1 jsonData h1
  obtain ⟨outputs, hfo, e2⟩ := importOutputs_some R t1 t2 jsonData assertId h2
  obtain ⟨programs, e3⟩ := importPrograms_some R _ t3 jsonData h3
  obtain ⟨attributes, e4⟩ := importAttributes_some R t3 t4 jsonData h4
  obtain ⟨type, entries, e5⟩ := importCrossChainAssets_some E R t4 result jsonData h5
  rw [adoptOutputVersion_eq] at e3
  refine ⟨t3, t4, inputs, outputs, hfi, hfo, ?_, ?_, ?_, ?_, ?_, ?_, h4, ?_, ?_, ?_, h5⟩
  · rw [e5, e4, e3, e2, e1]
  · rw [e5, e4, e3, e2, e1]
  · rw [e5, e4, e3, e2, e1]
  · rw [e3, e2, e1]
  · rw [e3, e2, e1]
  · rw [e3, e2, e1]
  · rw [e4, e3, e2, e1]
  · rw [e4, e3, e2, e1]
  · rw [e5]

theorem demoRecord_imported :
    (Transaction.new demoProvider).FromJson demoProvider demoRecords demoRecord ""
      = some demoImported := by
  rfl

/-- C14 (as stated, refuted): in the concrete records, a record without the key
`Attributes` that contains the memo `x` and a `Postmark` is imported into a freshly
constructed transaction with two attributes, the memo and a description; and without the
memo it is imported with two attributes as well, a nonce and a description. -/
theorem FromJson_postmark_adds_second_attribute :
    demoMemoPostmarkRecord.find "Attributes" = none
      ∧ demoMemoPostmarkRecord.find "Memo" = some (Json.string "x")
      ∧ ((Transaction.new demoProvider).FromJson demoProvider demoRecords
            demoMemoPostmarkRecord "").map (fun tx => tx.mAttributes.map (fun a => a.mUsage))
          = some [129, 145]
      ∧ ((Transaction.new demoProvider).FromJson demoProvider demoRecords
            (Json.object [("UTXOInputs", Json.array []), ("Outputs", Json.array []),
              ("Postmark", Json.object [])]) "").map
              (fun tx => tx.mAttributes.map (fun a => a.mUsage))
          = some [0, 145] := by
  refine ⟨rfl, rfl, ?_, ?_⟩ <;> decide

/-- C14 (amended): for a record imported by `FromJson` into a freshly constructed
transaction that lacks the keys `Attributes` and `Postmark`: when it contains a non-empty
text under `Memo`, the transaction ends with exactly one attribute, of usage memo, with
the bytes of the text as data; when it lacks `Memo` too, the transaction ends with exactly
one attribute, of usage nonce, with empty data. -/
theorem FromJson_synthesizes_one_attribute (E : Provider I O X) (R : Records I O X)
    (jsonData : Json) (assertId : String) (result : Transaction I O X)
    (himport : (Transaction.new E).FromJson E R jsonData assertId = some result)
    (hattributes : jsonData.find "Attributes" = none)
    (hpostmark : jsonData.find "Postmark" = none) :
    (∀ memo : String, jsonData.find "Memo" = some (Json.string memo) → memo ≠ "" →
        result.mAttributes = [⟨R.Memo, stringBytes memo⟩])
      ∧ (jsonData.find "Memo" = none → result.mAttributes = [⟨R.Nonce, []⟩]) := by
  obtain ⟨t3, t4, inputs, outputs, _, _, _, _, _, h3a, _, _, h4, _, _, hres, _⟩ :=
    FromJson_shape E R _ result jsonData assertId himport
  have hnew : t3.mAttributes = [] := h3a
  refine ⟨?_, ?_⟩
  · intro memo hmemo hne
    rw [importAttributes_absent R t3 jsonData memo hattributes hpostmark (Or.inl hmemo),
      Option.some.injEq] at h4
    rw [hres, ← h4]
    simp [hnew, hne, Attribute.ofText]
  · intro hmemo
    rw [importAttributes_absent R t3 jsonData "" hattributes hpostmark (Or.inr ⟨hmemo, rfl⟩),
      Option.some.injEq] at h4
    rw [hres, ← h4]
    simp [hnew, Attribute.ofText, stringBytes]

/-- C14 (amended), at the concrete record `demoRecord`, which has the memo `x` and
neither `Attributes` nor `Postmark`: the one attribute is the memo with data `[120]`. -/
theorem FromJson_synthesizes_one_attribute_witness :
    demoImported.mAttributes = [⟨demoRecords.Memo, stringBytes "x"⟩] :=
  (FromJson_synthesizes_one_attribute demoProvider demoRecords demoRecord "" demoImported
    demoRecord_imported rfl rfl).1 "x" rfl (by decide)

/-- C16: after an import by `FromJson`, the version of the transaction is 9 when at
least one of its outputs declares version 9, and otherwise is the version it had before;
a freshly constructed transaction has version 0, and with version 0 the unsigned payload
starts with the type byte (there is no version byte). -/
theorem FromJson_adopts_version_of_outputs (E : Provider I O X) (R : Records I O X)
    (tx : Transaction I O X) (jsonData : Json) (assertId : String)
    (result : Transaction I O X)
    (himport : tx.FromJson E R jsonData assertId = some result) :
    ((∃ output ∈ result.mOutputs, R.outputVersion output = 9) → result.mTxVersion = 9)
      ∧ ((¬ ∃ output ∈ result.mOutputs, R.outputVersion output = 9) →
          result.mTxVersion = tx.mTxVersion)
      ∧ (Transaction.new E).mTxVersion = 0
      ∧ (tx.mTxVersion = 0 → (¬ ∃ output ∈ result.mOutputs, R.outputVersion output = 9) →
          (result.SerializeUnsigned E ByteStream.empty).getBuffer.head?
            = some (result.mType % 256)) := by
  obtain ⟨t3, t4, inputs, outputs, _, _, _, _, hversion, _⟩ :=
    FromJson_shape E R tx result jsonData assertId himport
  have hyes : (∃ output ∈ result.mOutputs, R.outputVersion output = 9) →
      result.mTxVersion = 9 := by
    intro h
    rw [hversion, if_pos ((hasVersion9_iff R _).mpr h)]
  have hno : (¬ ∃ output ∈ result.mOutputs, R.outputVersion output = 9) →
      result.mTxVersion = tx.mTxVersion := by
    intro h
    rw [hversion, if_neg (fun hv => h ((hasVersion9_iff R _).mp hv))]
  refine ⟨hyes, hno, rfl, ?_⟩
  intro h0 h
  have hv : result.mTxVersion = 0 := (hno h).trans h0
  simp [SerializeUnsigned_getBuffer, Transaction.unsignedPayload, hv]

/-- C16, at the concrete record `demoRecord`, whose second output declares version 9. -/
theorem FromJson_adopts_version_of_outputs_witness :
    (∃ output ∈ demoImported.mOutputs, demoRecords.outputVersion output = 9)
      ∧ demoImported.mTxVersion = 9 :=
  ⟨by decide,
    (FromJson_adopts_version_of_outputs demoProvider demoRecords (Transaction.new demoProvider)
      demoRecord "" demoImported demoRecord_imported).1 (by decide)⟩

/-- C17: after an import by `FromJson`, when the record has an array under
`CrossChainAsset` the type of the transaction is `TransferCrossChainAsset` and the entries
of the array are appended to the cross-chain entries in array order, the entry at
position `k` made with index `k`; when the record has no key `CrossChainAsset` the type and
the cross-chain entries are as before; and a value under `CrossChainAsset` is always an
array. -/
theorem FromJson_indexes_cross_chain_entries (E : Provider I O X) (R : Records I O X)
    (tx : Transaction I O X) (jsonData : Json) (assertId : String)
    (result : Transaction I O X)
    (himport : tx.FromJson E R jsonData assertId = some result) :
    (∀ items : List Json, jsonData.find "CrossChainAsset" = some (Json.array items) →
        result.mType = E.TransferCrossChainAsset
          ∧ result.mCrossChainAssets.length = tx.mCrossChainAssets.length + items.length
          ∧ result.mCrossChainAssets.take tx.mCrossChainAssets.length = tx.mCrossChainAssets
          ∧ ∀ (k : Nat) (entry : Json), items[k]? = some entry →
              result.mCrossChainAssets[tx.mCrossChainAssets.length + k]?
                = some (R.crossChainAssetFromJson k entry))
      ∧ (jsonData.find "CrossChainAsset" = none →
          result.mType = tx.mType ∧ result.mCrossChainAssets = tx.mCrossChainAssets)
      ∧ (∀ value : Json, jsonData.find "CrossChainAsset" = some value →
          ∃ items, value = Json.array items) := by
  obtain ⟨t3, t4, inputs, outputs, _, _, _, _, _, _, _, _, _, h4t, h4c, _, h5⟩ :=
    FromJson_shape E R tx result jsonData assertId himport
  refine ⟨?_, ?_, ?_⟩
  · intro items hfind
    rw [importCrossChainAssets_present E R t4 jsonData items hfind, Option.some.injEq] at h5
    have htype : result.mType = E.TransferCrossChainAsset := by rw [← h5]
    have hentries : result.mCrossChainAssets = tx.mCrossChainAssets
        ++ (items.enumFrom 0).map (fun entry => R.crossChainAssetFromJson entry.1 entry.2) := by
      rw [← h5, ← h4c]
    refine ⟨htype, ?_, ?_, ?_⟩
    · rw [hentries]
      simp
    · rw [hentries]
      simp
    · intro k entry hk
      rw [hentries, List.getElem?_append_right (Nat.le_add_right _ _),
        Nat.add_sub_cancel_left, List.getElem?_map, List.getElem?_enumFrom, hk]
      simp
  · intro hfind
    rw [importCrossChainAssets_absent E R t4 jsonData hfind, Option.some.injEq] at h5
    rw [← h5]
    exact ⟨h4t, h4c⟩
  · intro value hfind
    cases value with
    | array items => exact ⟨items, rfl⟩
    | _ =>
      unfold importCrossChainAssets at h5
      rw [hfind] at h5
      simp [Json.asVector] at h5

/-- C17, at the concrete record `demoRecord`, which has two cross-chain entries: the type
is the cross-chain type and the entries carry the indexes 0 and 1. -/
theorem FromJson_indexes_cross_chain_entries_witness :
    demoImported.mType = demoProvider.TransferCrossChainAsset
      ∧ demoImported.mCrossChainAssets = [[0, 7], [1, 8]] :=
  ⟨((FromJson_indexes_cross_chain_entries demoProvider demoRecords
      (Transaction.new demoProvider) demoRecord "" demoImported demoRecord_imported).1
      [.array [.number 7], .array [.number 8]] rfl).1, rfl⟩

theorem ToJson_find_inputs (R : Records I O X) (tx : Transaction I O X) :
    (tx.ToJson R).find "UTXOInputs" = some (Json.array (tx.mInputs.map R.inputToJson)) := by
  unfold Transaction.ToJson
  simp only [foldl_push_map, List.nil_append]
  rw [find_ite_set_other _ _ _ _ _ (by decide), find_ite_set_other _ _ _ _ _ (by decide),
    find_ite_set_other _ _ _ _ _ (by decide), find_set_other _ _ _ _ (by decide),
    find_set_same]

theorem ToJson_find_outputs (R : Records I O X) (tx : Transaction I O X) :
    (tx.ToJson R).find "Outputs" = some (Json.array (tx.mOutputs.map R.outputToJson)) := by
  unfold Transaction.ToJson
  simp only [foldl_push_map, List.nil_append]
  rw [find_ite_set_other _ _ _ _ _ (by decide), find_ite_set_other _ _ _ _ _ (by decide),
    find_ite_set_other _ _ _ _ _ (by decide), find_set_same]

theorem ToJson_find_programs (R : Records I O X) (tx : Transaction I O X) :
    (tx.ToJson R).find "Programs" = none
      ∨ ∃ items, (tx.ToJson R).find "Programs" = some (Json.array items) := by
  unfold Transaction.ToJson
  simp only [foldl_push_map, List.nil_append]
  rw [find_ite_set_other _ _ _ _ _ (by decide), find_ite_set_other _ _ _ _ _ (by decide)]
  split
  · exact Or.inr ⟨_, find_set_same _ _ _⟩
  · left
    rw [find_set_other _ _ _ _ (by decide), find_set_other _ _ _ _ (by decide)]
    rfl

theorem ToJson_find_attributes (R : Records I O X) (tx : Transaction I O X)
    (hattributes : tx.mAttributes ≠ []) :
    (tx.ToJson R).find "Attributes"
      = some (Json.array (tx.mAttributes.map Attribute.ToJson)) := by
  have hpos : tx.mAttributes.length > 0 := List.length_pos.mpr hattributes
  unfold Transaction.ToJson
  simp only [foldl_push_map, List.nil_append]
  rw [find_ite_set_other _ _ _ _ _ (by decide), if_pos hpos, find_set_same]

theorem ToJson_find_cross (R : Records I O X) (tx : Transaction I O X) :
    (tx.ToJson R).find "CrossChainAsset" = none
      ∨ ∃ items, (tx.ToJson R).find "CrossChainAsset" = some (Json.array items) := by
  unfold Transaction.ToJson
  simp only [foldl_push_map, List.nil_append]
  split
  · exact Or.inr ⟨_, find_set_same _ _ _⟩
  · left
    rw [find_ite_set_other _ _ _ _ _ (by decide), find_ite_set_other _ _ _ _ _ (by decide),
      find_set_other _ _ _ _ (by decide), find_set_other _ _ _ _ (by decide)]
    rfl

theorem Attribute_FromJson_ToJson (a : Attribute) (hbytes : ∀ b ∈ a.mData, b < 256) :
    Attribute.FromJson a.ToJson = some a := by
  unfold Attribute.FromJson Attribute.ToJson Json.at
  simp only []
  rw [find_set_other _ _ _ _ (by decide), find_set_same, find_set_same]
  simp only [Json.asUsage, Json.asString, decodeHex_encodeHex a.mData hbytes]

theorem importAttributeList_ToJson (attributes : List Attribute) :
    ∀ tx : Transaction I O X, (∀ a ∈ attributes, ∀ b ∈ a.mData, b < 256) →
      importAttributeList (attributes.map Attribute.ToJson) tx
        = some { tx with mAttributes := tx.mAttributes ++ attributes } := by
  induction attributes with
  | nil => intro tx _; simp [importAttributeList]
  | cons a rest ih =>
    intro tx hbytes
    rw [List.map_cons, importAttributeList,
      Attribute_FromJson_ToJson a (hbytes a (List.mem_cons_self a rest))]
    simp only []
    rw [ih _ (fun x hx => hbytes x (List.mem_cons_of_mem a hx))]
    simp

theorem map_map_round_trip {α β : Type} (f : α → β) (g : β → α) (l : List α)
    (h : ∀ x ∈ l, g (f x) = x) : (l.map f).map g = l := by
  induction l with
  | nil => rfl
  | cons x xs ih =>
    simp only [List.map_cons, h x (List.mem_cons_self x xs),
      ih (fun y hy => h y (List.mem_cons_of_mem x hy))]

theorem importInputs_eq (R : Records I O X) (tx : Transaction I O X) (jsonData : Json)
    (items : List Json) (hfind : jsonData.find "UTXOInputs" = some (Json.array items)) :
    importInputs R tx jsonData
      = some { tx with mInputs := tx.mInputs ++ items.map R.inputFromJson } := by
  unfold importInputs Json.at
  rw [hfind]
  simp only [Json.asVector, foldl_push_inputs]

theorem importOutputs_eq (R : Records I O X) (tx : Transaction I O X) (jsonData : Json)
    (assertId : String) (items : List Json)
    (hfind : jsonData.find "Outputs" = some (Json.array items)) :
    importOutputs R tx jsonData assertId
      = some { tx with mOutputs := tx.mOutputs ++ items.map (R.outputFromJson assertId) } := by
  unfold importOutputs Json.at
  rw [hfind]
  simp only [Json.asVector, foldl_push_outputs]

theorem importPrograms_total (R : Records I O X) (tx : Transaction I O X) (jsonData : Json)
    (hfind : jsonData.find "Programs" = none
      ∨ ∃ items, jsonData.find "Programs" = some (Json.array items)) :
    ∃ programs, importPrograms R tx jsonData = some { tx with mPrograms := programs } := by
  unfold importPrograms
  rcases hfind with h | ⟨items, h⟩
  · rw [h]
    exact ⟨tx.mPrograms, rfl⟩
  · rw [h]
    exact ⟨tx.mPrograms ++ items.map R.programFromJson, by
      simp only [Json.asVector, foldl_push_programs]⟩

theorem importAttributes_present (R : Records I O X) (tx : Transaction I O X)
    (jsonData : Json) (items : List Json)
    (hfind : jsonData.find "Attributes" = some (Json.array items)) :
    importAttributes R tx jsonData = importAttributeList items tx := by
  unfold importAttributes
  rw [hfind]
  rfl

theorem importCrossChainAssets_total (E : Provider I O X) (R : Records I O X)
    (tx : Transaction I O X) (jsonData : Json)
    (hfind : jsonData.find "CrossChainAsset" = none
      ∨ ∃ items, jsonData.find "CrossChainAsset" = some (Json.array items)) :
    ∃ type entries, importCrossChainAssets E R tx jsonData
      = some { tx with mType := type, mCrossChainAssets := entries } := by
  rcases hfind with h | ⟨items, h⟩
  · exact ⟨tx.mType, tx.mCrossChainAssets, importCrossChainAssets_absent E R tx jsonData h⟩
  · exact ⟨_, _, importCrossChainAssets_present E R tx jsonData items h⟩

theorem FromJson_of_steps (E : Provider I O X) (R : Records I O X)
    (tx t1 t2 t3 t4 result : Transaction I O X) (jsonData : Json) (assertId : String)
    (h1 : importInputs R tx jsonData = some t1)
    (h2 : importOutputs R t1 jsonData assertId = some t2)
    (h3 : importPrograms R (adoptOutputVersion R t2) jsonData = some t3)
    (h4 : importAttributes R t3 jsonData = some t4)
    (h5 : importCrossChainAssets E R t4 jsonData = some result) :
    tx.FromJson E R jsonData assertId = some result := by
  unfold Transaction.FromJson
  rw [h1]
  simp only []
  rw [h2]
  simp only []
  rw [h3]
  simp only []
  rw [h4]
  exact h5

/-- C15 (as stated, refuted): in the concrete records, a freshly constructed
transaction has no attribute, its export has no key `Attributes`, and the import of the
export into a freshly constructed transaction has one attribute, a nonce with empty
data. -/
theorem FromJson_ToJson_adds_nonce_attribute :
    (Transaction.new demoProvider).mAttributes = []
      ∧ ((Transaction.new demoProvider).ToJson demoRecords).find "Attributes" = none
      ∧ ((Transaction.new demoProvider).FromJson demoProvider demoRecords
            ((Transaction.new demoProvider).ToJson demoRecords) "").map
              (fun tx => tx.mAttributes)
          = some [⟨0, []⟩] := by
  refine ⟨rfl, rfl, ?_⟩
  decide

/-- C15 (amended): for a transaction with at least one attribute, the import of its
export into a freshly constructed transaction succeeds and gives the same inputs, the
same outputs and the same attributes (usage and data), in the same order, given that the
attribute data are bytes (so that hex decoding undoes hex encoding) and that the import of
every input and of every output undoes its export. -/
theorem FromJson_ToJson_round_trip (E : Provider I O X) (R : Records I O X)
    (tx : Transaction I O X) (assertId : String)
    (hattributes : tx.mAttributes ≠ [])
    (hbytes : ∀ a ∈ tx.mAttributes, ∀ b ∈ a.mData, b < 256)
    (hinputs : ∀ input ∈ tx.mInputs, R.inputFromJson (R.inputToJson input) = input)
    (houtputs : ∀ output ∈ tx.mOutputs,
      R.outputFromJson assertId (R.outputToJson output) = output) :
    ∃ result, (Transaction.new E).FromJson E R (tx.ToJson R) assertId = some result
      ∧ result.mInputs = tx.mInputs
      ∧ result.mOutputs = tx.mOutputs
      ∧ result.mAttributes = tx.mAttributes := by
  have hin : (tx.mInputs.map R.inputToJson).map R.inputFromJson = tx.mInputs :=
    map_map_round_trip _ _ _ hinputs
  have hout : (tx.mOutputs.map R.outputToJson).map (R.outputFromJson assertId) = tx.mOutputs :=
    map_map_round_trip _ _ _ houtputs
  have h1 : importInputs R (Transaction.new E) (tx.ToJson R)
      = some { Transaction.new E with mInputs := tx.mInputs } := by
    rw [importInputs_eq R (Transaction.new E) (tx.ToJson R) _ (ToJson_find_inputs R tx), hin]
    rfl
  have h2 : importOutputs R { Transaction.new E with mInputs := tx.mInputs } (tx.ToJson R)
      assertId
      = some { Transaction.new E with mInputs := tx.mInputs, mOutputs := tx.mOutputs } := by
    rw [importOutputs_eq R _ (tx.ToJson R) assertId _ (ToJson_find_outputs R tx), hout]
    rfl
  obtain ⟨programs, h3⟩ := importPrograms_total R
    (adoptOutputVersion R
      { Transaction.new E with mInputs := tx.mInputs, mOutputs := tx.mOutputs })
    (tx.ToJson R) (ToJson_find_programs R tx)
  have h4 := importAttributes_present R
    { adoptOutputVersion R
        { Transaction.new E with mInputs := tx.mInputs, mOutputs := tx.mOutputs } with
      mPrograms := programs }
    (tx.ToJson R) _ (ToJson_find_attributes R tx hattributes)
  rw [importAttributeList_ToJson tx.mAttributes _ hbytes] at h4
  obtain ⟨type, entries, h5⟩ := importCrossChainAssets_total E R
    { adoptOutputVersion R
        { Transaction.new E with mInputs := tx.mInputs, mOutputs := tx.mOutputs } with
      mPrograms := programs
      mAttributes :=
        (adoptOutputVersion R
          { Transaction.new E with mInputs := tx.mInputs, mOutputs := tx.mOutputs }).mAttributes
          ++ tx.mAttributes }
    (tx.ToJson R) (ToJson_find_cross R tx)
  refine ⟨_, FromJson_of_steps E R _ _ _ _ _ _ _ assertId h1 h2 h3 h4 h5, ?_, ?_, ?_⟩
  · show (adoptOutputVersion R _).mInputs = tx.mInputs
    rw [adoptOutputVersion_eq]
  · show (adoptOutputVersion R _).mOutputs = tx.mOutputs
    rw [adoptOutputVersion_eq]
  · show (adoptOutputVersion R _).mAttributes ++ tx.mAttributes = tx.mAttributes
    rw [adoptOutputVersion_eq]
    rfl

/-- C15 (amended), at the concrete transaction `demoTx`, which has one attribute, one
input and one output. -/
theorem FromJson_ToJson_round_trip_witness :
    ∃ result, (Transaction.new demoProvider).FromJson demoProvider demoRecords
        (demoTx.ToJson demoRecords) "" = some result
      ∧ result.mInputs = [[1, 2, 3]]
      ∧ result.mOutputs = [[7, 7]]
      ∧ result.mAttributes = [⟨0, [5, 6]⟩] :=
  FromJson_ToJson_round_trip demoProvider demoRecords demoTx "" (by decide) (by decide)
    (by decide) (by decide)

end Elastos
